import Mathlib

/-!
Shallow embedding of the git-leaderboard historical metric store
(src/db.py `RepoDB`) and the HTTP handler layer (src/app.py), with
theorems checking the specification claims against it.

Conventions of the embedding:
* SQLite tables become Lean lists of row structures; row order models
  insertion order (rowid order), which is the order SQLite scans in the
  absence of an ORDER BY.
* Machine integers are `Int` / `Nat`; nullable columns are `Option`.
* Timestamps are kept as Unix seconds (`Int`); the ISO-8601
  rendering/parsing helpers (`iso_to_unix` / `unix_to_iso`) are
  abstracted away, so snapshot timestamp fields carry the already
  converted value.
* Fallible operations (statements that can raise `sqlite3.IntegrityError`
  or Python exceptions such as `KeyError`) return `Except String`.
-/

/-- Bytewise-on-codepoints strict order on char lists: the SQLite BINARY
collation used for `name_with_owner` comparisons and ORDER BY. -/
def strLtAux : List Char → List Char → Bool
  | [], [] => false
  | [], _ :: _ => true
  | _ :: _, [] => false
  | a :: as, b :: bs =>
    if a.toNat < b.toNat then true
    else if b.toNat < a.toNat then false
    else strLtAux as bs

/-- `a < b` on repository names under the BINARY collation. -/
def nameLt (a b : String) : Bool := strLtAux a.data b.data

/-- Does the char list start with the given needle. -/
def startsWithL : List Char → List Char → Bool
  | [], _ => true
  | _ :: _, [] => false
  | a :: as, b :: bs => a == b && startsWithL as bs

/-- Substring test on char lists. -/
def containsSubL (needle : List Char) : List Char → Bool
  | [] => startsWithL needle []
  | b :: bs => startsWithL needle (b :: bs) || containsSubL needle bs

/-- ASCII lowercasing, matching the ASCII-only case folding SQLite LIKE uses. -/
def lowerStr (s : String) : String := String.mk (s.data.map Char.toLower)

/-- Case-insensitive substring containment: the semantics of
`column LIKE '%needle%'` in SQLite (the needle is assumed free of the
LIKE wildcards `%` and `_`, which the code never escapes). -/
def likeContains (hay needle : String) : Bool :=
  containsSubL (lowerStr needle).data (lowerStr hay).data

/-- A row of the `repo` table. -/
structure RepoRow where
  id : Int
  name_with_owner : String
  description : Option String
  homepage_url : Option String
  created_at : Option Int
deriving DecidableEq, Repr

/-- A row of the `repo_latest` table. -/
structure LatestRow where
  repo_id : Int
  run_id : Nat
  history_start_run_id : Nat
  stars : Int
  forks : Int
  watchers : Int
  disk_usage : Option Int
  updated_at : Option Int
  pushed_at : Option Int
  is_archived : Bool
  primary_language_id : Option Nat
deriving DecidableEq, Repr

/-- A row of the `repo_metrics_hist` table. -/
structure HistRow where
  repo_id : Int
  start_run_id : Nat
  end_run_id : Nat
  stars : Int
  forks : Int
  watchers : Int
  disk_usage : Option Int
deriving DecidableEq, Repr

/-- A row of the `fetch_run` table. -/
structure FetchRunRow where
  id : Nat
  fetched_at : Int
deriving DecidableEq, Repr

/-- The relational store of `RepoDB` (src/db.py `_create_schema`).
`language` and `topic` are interning tables of (id, name) pairs;
`repo_topic_latest` rows are (repo_id, topic_id) pairs. -/
structure DB where
  repo : List RepoRow
  language : List (Nat × String)
  topic : List (Nat × String)
  fetch_run : List FetchRunRow
  repo_latest : List LatestRow
  repo_metrics_hist : List HistRow
  repo_topic_latest : List (Int × Nat)
deriving DecidableEq, Repr

/-- The empty database, as created by `_create_schema` on a fresh file. -/
def DB.empty : DB := ⟨[], [], [], [], [], [], []⟩

/-- A repository snapshot as delivered by the upstream search API
(one entry of the `nodes` list handed to `upsert_from_github_nodes`).
The payload is semi-structured: a missing or non-integer `databaseId`
is `none`, a missing `nameWithOwner` is `none`. Count fields are `none`
when absent (the code defaults them to 0 on read). `topics` carries the
topic names after the defensive extraction from `repositoryTopics`. -/
structure Node where
  databaseId : Option Int
  nameWithOwner : Option String
  createdAt : Option Int
  description : Option String
  homepageUrl : Option String
  stargazerCount : Option Int
  forkCount : Option Int
  watchers : Option Int
  diskUsage : Option Int
  updatedAt : Option Int
  pushedAt : Option Int
  isArchived : Bool
  primaryLanguage : Option String
  topics : List String
deriving DecidableEq, Repr

/-- The mutable per-process state of a `RepoDB` instance: the store, the
lazily created run id (`self._run_id`) and the set of repo ids already
processed in this pass (`self._processed_repo_ids`). -/
structure EngineState where
  db : DB
  run_id : Option Nat
  processed_repo_ids : List Int
deriving DecidableEq, Repr

/-- `lastrowid` for an INTEGER PRIMARY KEY insert: one more than the
largest existing id. -/
def next_id (ids : List Nat) : Nat := ids.foldr max 0 + 1

/-- `begin_run`: reuse the current run id if the pass already has one,
otherwise insert a new `fetch_run` row and remember its id. -/
def begin_run (db : DB) (run_id : Option Nat) (fetched_at : Int) : DB × Nat :=
  match run_id with
  | some r => (db, r)
  | none =>
    let rid := next_id (db.fetch_run.map (·.id))
    ({ db with fetch_run := db.fetch_run ++ [⟨rid, fetched_at⟩] }, rid)

/-- `_get_or_create_language_id`: `None` (and the empty string, falsy in
Python) yield no language; otherwise intern the name. The per-process
cache is semantically transparent and elided. -/
def get_or_create_language_id (db : DB) (name : Option String) : DB × Option Nat :=
  match name with
  | none => (db, none)
  | some nm =>
    if nm = "" then (db, none)
    else
      match db.language.find? (fun p => p.2 = nm) with
      | some p => (db, some p.1)
      | none =>
        let lid := next_id (db.language.map (·.1))
        ({ db with language := db.language ++ [(lid, nm)] }, some lid)

/-- `_get_or_create_topic_id`: intern a topic name. -/
def get_or_create_topic_id (db : DB) (name : String) : DB × Nat :=
  match db.topic.find? (fun p => p.2 = name) with
  | some p => (db, p.1)
  | none =>
    let tid := next_id (db.topic.map (·.1))
    ({ db with topic := db.topic ++ [(tid, name)] }, tid)

/-- The snapshot filter at the top of `upsert_from_github_nodes`: drop
entries without a positive integer `databaseId` or with an id already
seen in this pass, threading the processed-ids set left to right (so a
duplicate id later in the same batch is also dropped). Returns the
updated processed set and the surviving nodes in order. -/
def fresh_filter : List Int → List Node → List Int × List Node
  | processed, [] => (processed, [])
  | processed, n :: ns =>
    match n.databaseId with
    | none => fresh_filter processed ns
    | some i =>
      if i ≤ 0 then fresh_filter processed ns
      else if processed.contains i then fresh_filter processed ns
      else
        let pf := fresh_filter (i :: processed) ns
        (pf.1, n :: pf.2)

/-- The subselect `SELECT id FROM repo WHERE name_with_owner = ? AND id != ?`
used by the rename-conflict DELETE statements. -/
def conflict_ids (repos : List RepoRow) (name : String) (rid : Int) : List Int :=
  (repos.filter (fun r => r.name_with_owner = name && r.id != rid)).map (·.id)

/-- Shared shape of the two conflict-resolution DELETE statements: for
each (name, id) pair, drop every row whose repo id (under `proj`) is
currently held by that name under a different id. The subselect reads
the `repo` table, which is unchanged until the rename statement runs. -/
def conflict_delete {α : Type} (proj : α → Int) (repos : List RepoRow)
    (pairs : List (String × Int)) (init : List α) : List α :=
  pairs.foldl
    (fun ls p => ls.filter (fun x => !(conflict_ids repos p.1 p.2).contains (proj x)))
    init

/-- The first conflict-resolution statement, on `repo_latest`. -/
def delete_latest_conflicts (repos : List RepoRow) (pairs : List (String × Int))
    (latest : List LatestRow) : List LatestRow :=
  conflict_delete (·.repo_id) repos pairs latest

/-- The second conflict-resolution statement, on `repo_topic_latest`. -/
def delete_topic_conflicts (repos : List RepoRow) (pairs : List (String × Int))
    (rtl : List (Int × Nat)) : List (Int × Nat) :=
  conflict_delete (·.1) repos pairs rtl

/-- The third conflict-resolution statement:
`UPDATE repo SET name_with_owner = name_with_owner || '-renamed-' || id
 WHERE name_with_owner = ? AND id != ?`, once per (name, id) pair, in
batch order. Note the appended `id` is the column of the row being
updated, i.e. the id of the existing (losing) repo. -/
def rename_conflicts (repos : List RepoRow) (pairs : List (String × Int)) : List RepoRow :=
  pairs.foldl
    (fun rs p =>
      rs.map (fun r =>
        if r.name_with_owner = p.1 && r.id != p.2 then
          { r with name_with_owner := r.name_with_owner ++ "-renamed-" ++ toString r.id }
        else r))
    repos

/-- `INSERT INTO repo ... ON CONFLICT(id) DO UPDATE SET name_with_owner,
description, homepage_url` (created_at is set once at insertion). A
resulting duplicate `name_with_owner` raises the UNIQUE constraint. -/
def upsert_repo_row (repos : List RepoRow) (row : RepoRow) : Except String (List RepoRow) :=
  if repos.any (fun r => r.id != row.id && r.name_with_owner = row.name_with_owner) then
    Except.error "UNIQUE constraint failed: repo.name_with_owner"
  else if repos.any (fun r => r.id = row.id) then
    Except.ok (repos.map (fun r =>
      if r.id = row.id then
        { r with name_with_owner := row.name_with_owner,
                 description := row.description,
                 homepage_url := row.homepage_url }
      else r))
  else
    Except.ok (repos ++ [row])

/-- `INSERT INTO repo_latest ... ON CONFLICT(repo_id) DO UPDATE SET` every
non-key column: an existing row for the repo is replaced wholesale,
otherwise the row is appended. Applied per prepared row in batch order. -/
def apply_latest_upserts (latest : List LatestRow) (rows : List LatestRow) : List LatestRow :=
  rows.foldl
    (fun ls row =>
      if ls.any (fun rl => rl.repo_id = row.repo_id) then
        ls.map (fun rl => if rl.repo_id = row.repo_id then row else rl)
      else ls ++ [row])
    latest

/-- Plain `INSERT INTO repo_metrics_hist`: a duplicate of the primary key
(repo_id, start_run_id) raises the constraint and faults the batch. -/
def insert_hist_rows (hist : List HistRow) : List HistRow → Except String (List HistRow)
  | [] => Except.ok hist
  | row :: rows =>
    if hist.any (fun h => h.repo_id = row.repo_id && h.start_run_id = row.start_run_id) then
      Except.error "UNIQUE constraint failed: repo_metrics_hist"
    else insert_hist_rows (hist ++ [row]) rows

/-- `UPDATE repo_metrics_hist SET end_run_id = ? WHERE repo_id = ? AND
start_run_id = ?`, applied per (new end, repo id, start id) triple. -/
def apply_hist_extends (hist : List HistRow) (rows : List (Nat × Int × Nat)) : List HistRow :=
  rows.foldl
    (fun hs row =>
      hs.map (fun h =>
        if h.repo_id = row.2.1 && h.start_run_id = row.2.2 then
          { h with end_run_id := row.1 }
        else h))
    hist

/-- `INSERT OR IGNORE INTO repo_topic_latest(repo_id, topic_id)`. -/
def insert_topic_pairs (rtl : List (Int × Nat)) (pairs : List (Int × Nat)) : List (Int × Nat) :=
  pairs.foldl (fun ts p => if ts.contains p then ts else ts ++ [p]) rtl

/-- Accumulator of the per-node preparation loop of
`upsert_from_github_nodes` (the Python lists `latest_rows`,
`hist_insert_rows`, `hist_extend_rows`, `topic_repo_ids_to_refresh`,
`topic_pairs_to_insert`); the store is threaded through because
language/topic interning writes to it between the two transactions. -/
structure BuildAcc where
  db : DB
  latest_rows : List LatestRow
  hist_insert_rows : List HistRow
  hist_extend_rows : List (Nat × Int × Nat)
  topic_repo_ids : List Int
  topic_pairs : List (Int × Nat)
deriving Repr

/-- One iteration of the preparation loop: read the snapshot fields with
their Python defaults, intern the language and topics, diff the metric
quadruple against the prefetched `repo_latest` row and decide between
opening a new history segment and extending the current one. -/
def build_node_step (run_id : Nat) (existing_latest : List LatestRow)
    (acc : BuildAcc) (n : Node) : BuildAcc :=
  let repo_id := n.databaseId.getD 0
  let stars := n.stargazerCount.getD 0
  let forks := n.forkCount.getD 0
  let watchers := n.watchers.getD 0
  let disk_usage_i := n.diskUsage
  let dbl := get_or_create_language_id acc.db n.primaryLanguage
  let old? := existing_latest.find? (fun rl => rl.repo_id = repo_id)
  let hsrAndRows : Nat × List HistRow × List (Nat × Int × Nat) :=
    match old? with
    | none =>
      (run_id, acc.hist_insert_rows ++ [⟨repo_id, run_id, run_id, stars, forks, watchers, disk_usage_i⟩],
       acc.hist_extend_rows)
    | some old =>
      let changed := old.stars != stars || old.forks != forks || old.watchers != watchers
        || old.disk_usage != disk_usage_i
      if changed then
        (run_id, acc.hist_insert_rows ++ [⟨repo_id, run_id, run_id, stars, forks, watchers, disk_usage_i⟩],
         acc.hist_extend_rows)
      else
        (old.history_start_run_id, acc.hist_insert_rows,
         acc.hist_extend_rows ++ [(run_id, repo_id, old.history_start_run_id)])
  let newLatest : LatestRow :=
    ⟨repo_id, run_id, hsrAndRows.1, stars, forks, watchers, disk_usage_i,
     n.updatedAt, n.pushedAt, n.isArchived, dbl.2⟩
  let dbt := n.topics.foldl
    (fun st nm =>
      let r := get_or_create_topic_id st.1 nm
      (r.1, st.2 ++ [(repo_id, r.2)]))
    (dbl.1, ([] : List (Int × Nat)))
  { db := dbt.1
    latest_rows := acc.latest_rows ++ [newLatest]
    hist_insert_rows := hsrAndRows.2.1
    hist_extend_rows := hsrAndRows.2.2
    topic_repo_ids := acc.topic_repo_ids ++ [repo_id]
    topic_pairs := acc.topic_pairs ++ dbt.2 }

/-- Reading `n["nameWithOwner"]` while building the repo rows: raises
`KeyError` when the snapshot lacks the field. -/
def node_repo_row (n : Node) : Except String RepoRow :=
  match n.nameWithOwner with
  | none => Except.error "KeyError: nameWithOwner"
  | some nm =>
    Except.ok ⟨n.databaseId.getD 0, nm, n.description, n.homepageUrl, n.createdAt⟩

/-- The repo-row building loop over the fresh nodes, faulting at the
first snapshot without a name. -/
def map_repo_rows : List Node → Except String (List RepoRow)
  | [] => Except.ok []
  | n :: ns =>
    match node_repo_row n with
    | Except.error e => Except.error e
    | Except.ok row =>
      match map_repo_rows ns with
      | Except.error e => Except.error e
      | Except.ok rows => Except.ok (row :: rows)

/-- The repo-upsert executemany, applied row by row in batch order. -/
def upsert_repo_rows (repos : List RepoRow) : List RepoRow → Except String (List RepoRow)
  | [] => Except.ok repos
  | row :: rows =>
    match upsert_repo_row repos row with
    | Except.error e => Except.error e
    | Except.ok repos1 => upsert_repo_rows repos1 rows

/-- The body of `upsert_from_github_nodes` after run creation and the
freshness filter: conflict resolution and repo upsert (first
transaction), the preparation loop, then the latest/hist/topic writes
(second transaction). An error models the Python exception faulting the
batch: the enclosing transaction rolls back and nothing of the batch is
committed. -/
def ingest_fresh (db0 : DB) (run_id : Nat) (fresh_nodes : List Node) :
    Except String DB :=
  if fresh_nodes.isEmpty then
    Except.ok db0
  else
    match map_repo_rows fresh_nodes with
    | Except.error e => Except.error e
    | Except.ok repo_rows =>
      let pairs := repo_rows.map (fun r => (r.name_with_owner, r.id))
      let latest1 := delete_latest_conflicts db0.repo pairs db0.repo_latest
      let rtl1 := delete_topic_conflicts db0.repo pairs db0.repo_topic_latest
      let repos1 := rename_conflicts db0.repo pairs
      match upsert_repo_rows repos1 repo_rows with
      | Except.error e => Except.error e
      | Except.ok repos2 =>
        let db1 : DB := { db0 with repo := repos2, repo_latest := latest1, repo_topic_latest := rtl1 }
        let acc := fresh_nodes.foldl (build_node_step run_id latest1)
          ⟨db1, [], [], [], [], []⟩
        match insert_hist_rows acc.db.repo_metrics_hist acc.hist_insert_rows with
        | Except.error e => Except.error e
        | Except.ok hist2 =>
          let hist3 := apply_hist_extends hist2 acc.hist_extend_rows
          let rtl2 := acc.db.repo_topic_latest.filter (fun p => !acc.topic_repo_ids.contains p.1)
          let rtl3 := insert_topic_pairs rtl2 acc.topic_pairs
          Except.ok { acc.db with repo_latest := apply_latest_upserts acc.db.repo_latest acc.latest_rows,
                                  repo_metrics_hist := hist3, repo_topic_latest := rtl3 }

/-- `upsert_from_github_nodes(nodes)`: lazily begin the run, filter the
batch, then ingest the surviving snapshots. `fetched_at` is the clock
reading `begin_run` would take. On error the batch transaction is
rolled back; the model surfaces only the error (in Python the created
`fetch_run` row and the processed-ids additions survive the fault, a
detail no theorem below relies on). -/
def upsert_from_github_nodes (s : EngineState) (fetched_at : Int) (nodes : List Node) :
    Except String EngineState :=
  let dbr := begin_run s.db s.run_id fetched_at
  let pf := fresh_filter s.processed_repo_ids nodes
  match ingest_fresh dbr.1 dbr.2 pf.2 with
  | Except.error e => Except.error e
  | Except.ok db2 => Except.ok ⟨db2, some dbr.2, pf.1⟩

/-- The join `repo_latest rl JOIN repo r ON r.id = rl.repo_id` shared by
every query (one row per `repo_latest` row whose repo exists). -/
def latest_join (db : DB) : List (RepoRow × LatestRow) :=
  db.repo_latest.filterMap (fun rl =>
    (db.repo.find? (fun r => r.id = rl.repo_id)).map (fun r => (r, rl)))

/-- `select_latest_base_sql` additionally inner-joins
`fetch_run fr ON fr.id = rl.run_id`, so rows whose run row is missing
are dropped (foreign keys make this vacuous in reachable states). -/
def latest_join_runs (db : DB) : List (RepoRow × LatestRow) :=
  (latest_join db).filter (fun pr => db.fetch_run.any (fun fr => fr.id = pr.2.run_id))

/-- `_prepare_filter_conditions` as a predicate on a joined row: the
language, topic and substring conditions composed with AND. An empty
string is falsy in Python, so it disables the corresponding filter. -/
def matches_filters (db : DB) (q : Option String) (in_description : Bool)
    (language : Option String) (topic : Option String) (pr : RepoRow × LatestRow) : Bool :=
  (match language with
   | none => true
   | some lg =>
     if lg = "" then true
     else
       match pr.2.primary_language_id with
       | none => false
       | some lid => db.language.any (fun lp => lp.1 = lid && lp.2 = lg))
  && (match topic with
      | none => true
      | some tp =>
        if tp = "" then true
        else db.repo_topic_latest.any (fun e =>
          e.1 = pr.2.repo_id && db.topic.any (fun tr => tr.1 = e.2 && tr.2 = tp)))
  && (match q with
      | none => true
      | some qs =>
        if qs.trim = "" then true
        else
          likeContains pr.1.name_with_owner qs.trim
          || (in_description &&
              match pr.1.description with
              | some d => likeContains d qs.trim
              | none => false))

/-- SQLite ordering on a possibly-NULL integer column: NULL sorts below
every integer. -/
def optIntLt : Option Int → Option Int → Bool
  | none, none => false
  | none, some _ => true
  | some _, none => false
  | some x, some y => decide (x < y)

/-- Strict precedence of row `a` over row `b` under
`ORDER BY key DESC, name_with_owner ASC`. -/
def metric_before (key : RepoRow × LatestRow → Option Int) (a b : RepoRow × LatestRow) : Bool :=
  optIntLt (key b) (key a)
  || (decide (key a = key b) && nameLt a.1.name_with_owner b.1.name_with_owner)

/-- The reflexive total preorder induced by `metric_before`, used as the
sort relation. -/
def metric_le (key : RepoRow × LatestRow → Option Int) (a b : RepoRow × LatestRow) : Bool :=
  metric_before key a b || !(metric_before key b a)

/-- Fixed page size of the query layer. -/
def page_size : Nat := 100

/-- `LIMIT 100 OFFSET (page - 1) * 100`. SQLite treats a negative OFFSET
as zero, which `Int.toNat` reproduces. -/
def paginate {α : Type} (l : List α) (page : Int) : List α :=
  (l.drop ((page - 1) * page_size).toNat).take page_size

/-- `count_leaderboard`: `COUNT(DISTINCT rl.repo_id)` over the filtered
join (`count_base_sql` does not join `fetch_run`). -/
def count_leaderboard (db : DB) (q : Option String) (in_description : Bool)
    (language : Option String) (topic : Option String) : Nat :=
  ((((latest_join db).filter
      (fun pr => matches_filters db q in_description language topic pr)).map
    (fun pr => pr.2.repo_id)).dedup).length

/-- `_base_run_id_for_window`: the newest run id whose `fetched_at` is at
most `max(fetched_at) - window`, or 0 when the table is empty or no run
is old enough. -/
def base_run_id_for_window (db : DB) (window_seconds : Int) : Nat :=
  match (db.fetch_run.map (·.fetched_at)).max? with
  | none => 0
  | some mx =>
    let cutoff := mx - window_seconds
    (((db.fetch_run.filter (fun fr => fr.fetched_at ≤ cutoff)).map (·.id)).max?).getD 0

/-- The correlated subquery of the trending select: the history row of
the repo covering `base_run_id`, with `ORDER BY end_run_id ASC LIMIT 1`
as tie-break (by the non-overlap invariant at most one row matches). -/
def base_hist_row (db : DB) (repo_id : Int) (base_run_id : Nat) : Option HistRow :=
  (List.insertionSort (fun a b => a.end_run_id ≤ b.end_run_id)
    (db.repo_metrics_hist.filter
      (fun h => h.repo_id = repo_id && h.start_run_id ≤ base_run_id
        && base_run_id ≤ h.end_run_id))).head?

/-- `MAX(rl.stars - COALESCE(<base row stars>, rl.stars), 0)`. -/
def newStars_of (db : DB) (rl : LatestRow) (base_run_id : Nat) : Int :=
  max (rl.stars - (((base_hist_row db rl.repo_id base_run_id).map (·.stars)).getD rl.stars)) 0

/-- One result row of the trending select, before serialization. -/
structure TrendEntry where
  repo : RepoRow
  latest : LatestRow
  newStars : Int
deriving DecidableEq, Repr

/-- Strict precedence under
`ORDER BY newStars DESC, rl.stars DESC, r.name_with_owner ASC`. -/
def trend_before (a b : TrendEntry) : Bool :=
  decide (b.newStars < a.newStars)
  || (decide (a.newStars = b.newStars)
      && (decide (b.latest.stars < a.latest.stars)
          || (decide (a.latest.stars = b.latest.stars)
              && nameLt a.repo.name_with_owner b.repo.name_with_owner)))

/-- The reflexive total preorder induced by `trend_before`. -/
def trend_le (a b : TrendEntry) : Bool := trend_before a b || !(trend_before b a)

/-- The rows of `trending_leaderboard`: filter the join, compute
`newStars` against the window base run, sort and paginate. -/
def trending_rows (db : DB) (window_seconds : Int) (page : Int) (q : Option String)
    (in_description : Bool) (language : Option String) (topic : Option String) :
    List TrendEntry :=
  paginate
    (List.insertionSort (fun a b => trend_le a b = true)
      (((latest_join_runs db).filter
          (fun pr => matches_filters db q in_description language topic pr)).map
        (fun pr => ⟨pr.1, pr.2, newStars_of db pr.2 (base_run_id_for_window db window_seconds)⟩)))
    page

/-- A serialized leaderboard item (`row_to_obj`): `ns` is present only
when the row carries a truthy `newStars`. The other wire fields are
projections of the two carried rows. -/
structure LbItem where
  repo : RepoRow
  latest : LatestRow
  ns : Option Int
deriving DecidableEq, Repr

/-- Serialization of a trending row: `row_to_obj` keeps `ns` only when
`newStars` is nonzero (Python truthiness). -/
def trend_to_item (e : TrendEntry) : LbItem :=
  ⟨e.repo, e.latest, if e.newStars = 0 then none else some e.newStars⟩

/-- `trending_leaderboard`: the trending rows through `row_to_obj`. -/
def trending_leaderboard (db : DB) (window_seconds : Int) (page : Int) (q : Option String)
    (in_description : Bool) (language : Option String) (topic : Option String) :
    List LbItem :=
  (trending_rows db window_seconds page q in_description language topic).map trend_to_item

/-- The `metric_map` of `leaderboard`: recognized static metric keys and
the column each sorts by. -/
def metric_map (metric : String) : Option (RepoRow × LatestRow → Option Int) :=
  if metric = "stars" || metric = "stargazerCount" then some (fun pr => some pr.2.stars)
  else if metric = "forks" || metric = "forkCount" then some (fun pr => some pr.2.forks)
  else if metric = "watchers" || metric = "watchersCount" then some (fun pr => some pr.2.watchers)
  else if metric = "diskUsage" || metric = "disk_usage" then some (fun pr => pr.2.disk_usage)
  else none

/-- The `trending_map` of `leaderboard`: trending keys and their window
in seconds. -/
def trending_map (metric : String) : Option Int :=
  if metric = "trending24h" then some (24 * 3600)
  else if metric = "trending3d" then some (3 * 24 * 3600)
  else if metric = "trending7d" then some (7 * 24 * 3600)
  else if metric = "trending30d" then some (30 * 24 * 3600)
  else none

/-- `leaderboard`: dispatch trending keys, reject unrecognized metrics
with `ValueError` ("Unsupported metric"), otherwise filter, sort by the
metric column descending with name ascending, and paginate. -/
def leaderboard (db : DB) (metric : String) (page : Int) (q : Option String)
    (in_description : Bool) (language : Option String) (topic : Option String) :
    Except String (List LbItem) :=
  match trending_map metric with
  | some ws => Except.ok (trending_leaderboard db ws page q in_description language topic)
  | none =>
    match metric_map metric with
    | none => Except.error ("Unsupported metric: " ++ metric)
    | some key =>
      Except.ok
        ((paginate
            (List.insertionSort (fun a b => metric_le key a b = true)
              ((latest_join_runs db).filter
                (fun pr => matches_filters db q in_description language topic pr)))
            page).map
          (fun pr => ⟨pr.1, pr.2, none⟩))

/-- The correlated-count condition of `get_global_rank`: row `a` counts
against row `b` when `a.stars > b.stars` or stars tie and `a.name <
b.name`. -/
def rank_before (a b : RepoRow × LatestRow) : Bool :=
  decide (b.2.stars < a.2.stars)
  || (decide (a.2.stars = b.2.stars) && nameLt a.1.name_with_owner b.1.name_with_owner)

/-- `get_global_rank`: 1 plus the number of joined rows strictly
preceding the named repo; `none` when the repo has no joined row. -/
def get_global_rank (db : DB) (nm : String) : Option Nat :=
  match (latest_join db).find? (fun pr => pr.1.name_with_owner = nm) with
  | none => none
  | some pr => some ((latest_join db).countP (fun pr2 => rank_before pr2 pr) + 1)

/-- The sort key of the static `stars` leaderboard. -/
def stars_key : RepoRow × LatestRow → Option Int := fun pr => some pr.2.stars

/-- The `ROW_NUMBER() OVER (ORDER BY rl2.stars DESC, r2.name_with_owner
ASC)` window of `select_latest_base_sql`: the 1-based position of the
repo in the stars order over `repo_latest JOIN repo`. -/
def global_rank_row_number (db : DB) (repo_id : Int) : Option Nat :=
  ((List.insertionSort (fun a b => metric_le stars_key a b = true) (latest_join db)).findIdx?
    (fun pr => pr.2.repo_id = repo_id)).map (· + 1)

/-- The topic names of a repo as flattened by `row_to_obj` (empty names
filtered out). -/
def topics_of (db : DB) (repo_id : Int) : List String :=
  (((db.repo_topic_latest.filter (fun pr => pr.1 = repo_id)).filterMap
    (fun pr => (db.topic.find? (fun tp => tp.1 = pr.2)).map (·.2))).filter (fun s => s ≠ ""))

/-- The single-repo wire object of `row_to_obj` (compact keys;
timestamps kept as Unix seconds, their ISO rendering abstracted). -/
structure RepoView where
  n : String
  g : Option Nat
  s : Int
  f : Int
  w : Int
  d : Option Int
  a : Option String
  h : Option String
  c : Option Int
  p : Option Int
  i : Bool
  l : Option String
  t : List String
deriving DecidableEq, Repr

/-- `get_repo_latest`: the joined row of the named repo (with the inner
`fetch_run` join of `select_latest_base_sql`), or `none` when the name
has no `repo_latest` row. -/
def get_repo_latest (db : DB) (nm : String) : Option RepoView :=
  match (latest_join_runs db).find? (fun pr => pr.1.name_with_owner = nm) with
  | none => none
  | some pr =>
    some { n := pr.1.name_with_owner
           g := global_rank_row_number db pr.2.repo_id
           s := pr.2.stars
           f := pr.2.forks
           w := pr.2.watchers
           d := pr.2.disk_usage
           a := pr.1.description
           h := pr.1.homepage_url
           c := pr.1.created_at
           p := pr.2.pushed_at
           i := pr.2.is_archived
           l := pr.2.primary_language_id.bind
             (fun lid => (db.language.find? (fun lp => lp.1 = lid)).map (·.2))
           t := topics_of db pr.2.repo_id }

/-- One serialized history segment (interval endpoints as the
`fetched_at` instants of the joined runs, kept as Unix seconds). -/
structure Segment where
  startFetchedAt : Int
  endFetchedAt : Int
  s : Int
  f : Int
  w : Int
  d : Option Int
deriving DecidableEq, Repr

/-- `history_segments`: empty when the repo is absent; otherwise up to
`limit` history rows ordered by `start_run_id` ascending, inner-joined
with `fetch_run` on both endpoints. -/
def history_segments (db : DB) (nm : String) (limit : Nat) : List Segment :=
  match db.repo.find? (fun r => r.name_with_owner = nm) with
  | none => []
  | some r =>
    ((List.insertionSort (fun a b => a.start_run_id ≤ b.start_run_id)
        (db.repo_metrics_hist.filter (fun h => h.repo_id = r.id))).filterMap
      (fun h =>
        (db.fetch_run.find? (fun fr => fr.id = h.start_run_id)).bind (fun rs =>
          (db.fetch_run.find? (fun fr => fr.id = h.end_run_id)).map (fun re =>
            (⟨rs.fetched_at, re.fetched_at, h.stars, h.forks, h.watchers, h.disk_usage⟩ :
              Segment))))).take limit

/-- Outcome of an HTTP handler: a 200 body, a 404 (`HTTPException(404)`),
a 400 (`HTTPException(400)` raised on `ValueError`), or a 422 rejection
produced by FastAPI request validation (`Query(1, ge=1)`) before the
handler runs. -/
inductive ApiResponse (α : Type) where
  | ok (body : α)
  | notFound
  | badRequest
  | unprocessable
deriving DecidableEq, Repr

/-- The Shields-compatible badge payload of `GET /api/rank`. -/
structure Badge where
  schemaVersion : Nat
  label : String
  message : String
  color : String
  cacheSeconds : Option Nat
deriving DecidableEq, Repr

/-- The body of `GET /api/leaderboard`. -/
structure LeaderboardResponse where
  page : Int
  total : Nat
  totalPages : Nat
  items : List LbItem
deriving DecidableEq, Repr

/-- The body of `GET /api/repo/history`. -/
structure HistoryResponse where
  nameWithOwner : String
  segments : List Segment
deriving DecidableEq, Repr

/-- `GET /api/leaderboard` (the response cache is transparent over the
pure query layer and elided): page below 1 is rejected by request
validation; a `ValueError` from the query becomes a 400. -/
def api_leaderboard (db : DB) (metric : String) (page : Int) (q : Option String)
    (in_description : Bool) (language : Option String) (topic : Option String) :
    ApiResponse LeaderboardResponse :=
  if page < 1 then ApiResponse.unprocessable
  else
    let total := count_leaderboard db q in_description language topic
    match leaderboard db metric page q in_description language topic with
    | Except.error _ => ApiResponse.badRequest
    | Except.ok items =>
      ApiResponse.ok
        ⟨page, total, if 0 < total then (total + page_size - 1) / page_size else 1, items⟩

/-- `GET /api/repo`: 404 when `get_repo_latest` returns no row. -/
def api_repo (db : DB) (name : String) : ApiResponse RepoView :=
  match get_repo_latest db name with
  | none => ApiResponse.notFound
  | some v => ApiResponse.ok v

/-- `GET /api/repo/history`: always 200, with up to 2920 segments (an
unknown name yields an empty segment list, not a 404). -/
def api_repo_history (db : DB) (name : String) : ApiResponse HistoryResponse :=
  ApiResponse.ok ⟨name, history_segments db name 2920⟩

/-- `GET /api/rank`: a synthesized not-found badge instead of a 404
(Python falsiness of `rank` also catches 0, which `get_global_rank`
never returns). -/
def api_rank (db : DB) (name : String) : ApiResponse Badge :=
  match get_global_rank db name with
  | none => ApiResponse.ok ⟨1, "rank", "repo not found", "inactive", none⟩
  | some rank =>
    if rank = 0 then ApiResponse.ok ⟨1, "rank", "repo not found", "inactive", none⟩
    else
      let color := if rank ≤ 100 then "brightgreen"
        else if rank ≤ 1000 then "orange" else "blue"
      ApiResponse.ok ⟨1, "global rank", "#" ++ toString rank, color, some 3600⟩

/-- `GET /{owner}/{repo}`: the 302 redirect modeled as the computed
leaderboard page together with the highlighted name (URL encoding
abstracted); 404 when the rank lookup misses. -/
def repo_short_url (db : DB) (owner repo : String) : ApiResponse (Nat × String) :=
  let name := owner ++ "/" ++ repo
  match get_global_rank db name with
  | none => ApiResponse.notFound
  | some rank =>
    if rank = 0 then ApiResponse.notFound
    else ApiResponse.ok ((rank - 1) / page_size + 1, name)

/-! Order-theoretic facts about the comparators. -/

theorem char_toNat_inj {a b : Char} (h : a.toNat = b.toNat) : a = b :=
  Char.eq_of_val_eq (UInt32.toNat.inj h)

theorem strLtAux_irrefl : ∀ l : List Char, strLtAux l l = false := by
  intro l
  induction l with
  | nil => rfl
  | cons a as ih => simp [strLtAux, ih]

theorem strLtAux_asymm : ∀ a b : List Char, strLtAux a b = true → strLtAux b a = false := by
  intro a
  induction a with
  | nil => intro b h; cases b with
    | nil => simp [strLtAux] at h
    | cons y ys => simp [strLtAux]
  | cons x xs ih =>
    intro b h
    cases b with
    | nil => simp [strLtAux] at h
    | cons y ys =>
      simp only [strLtAux] at h ⊢
      by_cases h1 : x.toNat < y.toNat
      · have h2 : ¬ y.toNat < x.toNat := by omega
        simp [h1, h2]
      · by_cases h2 : y.toNat < x.toNat
        · simp [h1, h2] at h
        · simp [h1, h2] at h ⊢
          exact ih ys h

theorem strLtAux_trans : ∀ a b c : List Char,
    strLtAux a b = true → strLtAux b c = true → strLtAux a c = true := by
  intro a
  induction a with
  | nil =>
    intro b c hab hbc
    cases b with
    | nil => simp [strLtAux] at hab
    | cons y ys =>
      cases c with
      | nil => simp [strLtAux] at hbc
      | cons z zs => simp [strLtAux]
  | cons x xs ih =>
    intro b c hab hbc
    cases b with
    | nil => simp [strLtAux] at hab
    | cons y ys =>
      cases c with
      | nil => simp [strLtAux] at hbc
      | cons z zs =>
        simp only [strLtAux] at hab hbc ⊢
        by_cases hxy : x.toNat < y.toNat
        · by_cases hyz : y.toNat < z.toNat
          · have : x.toNat < z.toNat := by omega
            simp [this]
          · by_cases hzy : z.toNat < y.toNat
            · simp [hyz, hzy] at hbc
            · have hyzeq : y.toNat = z.toNat := by omega
              have : x.toNat < z.toNat := by omega
              simp [this]
        · by_cases hyx : y.toNat < x.toNat
          · simp [hxy, hyx] at hab
          · have hxyeq : x.toNat = y.toNat := by omega
            simp [hxy, hyx] at hab
            by_cases hyz : y.toNat < z.toNat
            · have : x.toNat < z.toNat := by omega
              simp [this]
            · by_cases hzy : z.toNat < y.toNat
              · simp [hyz, hzy] at hbc
              · simp [hyz, hzy] at hbc
                have h1 : ¬ x.toNat < z.toNat := by omega
                have h2 : ¬ z.toNat < x.toNat := by omega
                simp [h1, h2]
                exact ih ys zs hab hbc

theorem strLtAux_connex : ∀ a b : List Char,
    strLtAux a b = false → strLtAux b a = false → a = b := by
  intro a
  induction a with
  | nil => intro b hab _; cases b with
    | nil => rfl
    | cons y ys => simp [strLtAux] at hab
  | cons x xs ih =>
    intro b hab hba
    cases b with
    | nil => simp [strLtAux] at hba
    | cons y ys =>
      simp only [strLtAux] at hab hba
      by_cases hxy : x.toNat < y.toNat
      · simp [hxy] at hab
      · by_cases hyx : y.toNat < x.toNat
        · simp [hxy, hyx] at hab
          simp [hyx] at hba
        · simp [hxy, hyx] at hab hba
          have hx : x = y := char_toNat_inj (by omega)
          rw [hx, ih ys hab hba]

theorem string_data_inj {a b : String} (h : a.data = b.data) : a = b := by
  cases a; cases b; simp_all

theorem nameLt_irrefl (a : String) : nameLt a a = false := strLtAux_irrefl a.data

theorem nameLt_asymm {a b : String} (h : nameLt a b = true) : nameLt b a = false :=
  strLtAux_asymm a.data b.data h

theorem nameLt_trans {a b c : String} (hab : nameLt a b = true) (hbc : nameLt b c = true) :
    nameLt a c = true :=
  strLtAux_trans a.data b.data c.data hab hbc

theorem nameLt_connex {a b : String} (hab : nameLt a b = false) (hba : nameLt b a = false) :
    a = b :=
  string_data_inj (strLtAux_connex a.data b.data hab hba)

theorem optIntLt_irrefl (a : Option Int) : optIntLt a a = false := by
  cases a <;> simp [optIntLt]

theorem optIntLt_asymm {a b : Option Int} (h : optIntLt a b = true) : optIntLt b a = false := by
  cases a <;> cases b <;> simp_all [optIntLt] <;> omega

theorem optIntLt_trans {a b c : Option Int} (hab : optIntLt a b = true)
    (hbc : optIntLt b c = true) : optIntLt a c = true := by
  cases a <;> cases b <;> cases c <;> simp_all [optIntLt] <;> omega

theorem optIntLt_connex {a b : Option Int} (hab : optIntLt a b = false)
    (hba : optIntLt b a = false) : a = b := by
  cases a <;> cases b <;> simp_all [optIntLt] <;> omega

theorem metric_before_iff {key : RepoRow × LatestRow → Option Int} {a b : RepoRow × LatestRow} :
    metric_before key a b = true ↔
      optIntLt (key b) (key a) = true ∨
        (key a = key b ∧ nameLt a.1.name_with_owner b.1.name_with_owner = true) := by
  simp [metric_before]

theorem metric_before_irrefl (key : RepoRow × LatestRow → Option Int)
    (a : RepoRow × LatestRow) : metric_before key a a = false := by
  simp [metric_before, optIntLt_irrefl, nameLt_irrefl]

theorem metric_before_asymm {key : RepoRow × LatestRow → Option Int}
    {a b : RepoRow × LatestRow} (h : metric_before key a b = true) :
    metric_before key b a = false := by
  rw [Bool.eq_false_iff]
  intro hcon
  rcases metric_before_iff.mp h with h1 | ⟨hk, hn⟩ <;>
    rcases metric_before_iff.mp hcon with h2 | ⟨hk2, hn2⟩
  · rw [optIntLt_asymm h1] at h2; exact Bool.false_ne_true h2
  · rw [hk2, optIntLt_irrefl] at h1; exact Bool.false_ne_true h1
  · rw [hk, optIntLt_irrefl] at h2; exact Bool.false_ne_true h2
  · rw [nameLt_asymm hn] at hn2; exact Bool.false_ne_true hn2

theorem metric_before_trans {key : RepoRow × LatestRow → Option Int}
    {a b c : RepoRow × LatestRow} (hab : metric_before key a b = true)
    (hbc : metric_before key b c = true) : metric_before key a c = true := by
  rcases metric_before_iff.mp hab with h1 | ⟨hk1, hn1⟩ <;>
    rcases metric_before_iff.mp hbc with h2 | ⟨hk2, hn2⟩
  · exact metric_before_iff.mpr (Or.inl (optIntLt_trans h2 h1))
  · exact metric_before_iff.mpr (Or.inl (hk2 ▸ h1))
  · exact metric_before_iff.mpr (Or.inl (hk1 ▸ h2))
  · exact metric_before_iff.mpr (Or.inr ⟨hk1.trans hk2, nameLt_trans hn1 hn2⟩)

theorem metric_before_connex {key : RepoRow × LatestRow → Option Int}
    {a b : RepoRow × LatestRow} (hab : metric_before key a b = false)
    (hba : metric_before key b a = false) :
    key a = key b ∧ a.1.name_with_owner = b.1.name_with_owner := by
  have hab' := Bool.eq_false_iff.mp hab
  have hba' := Bool.eq_false_iff.mp hba
  have h1 : optIntLt (key b) (key a) = false := by
    rw [Bool.eq_false_iff]; intro h; exact hab' (metric_before_iff.mpr (Or.inl h))
  have h2 : optIntLt (key a) (key b) = false := by
    rw [Bool.eq_false_iff]; intro h; exact hba' (metric_before_iff.mpr (Or.inl h))
  have hk : key a = key b := (optIntLt_connex h1 h2).symm
  have h3 : nameLt a.1.name_with_owner b.1.name_with_owner = false := by
    rw [Bool.eq_false_iff]; intro h; exact hab' (metric_before_iff.mpr (Or.inr ⟨hk, h⟩))
  have h4 : nameLt b.1.name_with_owner a.1.name_with_owner = false := by
    rw [Bool.eq_false_iff]; intro h; exact hba' (metric_before_iff.mpr (Or.inr ⟨hk.symm, h⟩))
  exact ⟨hk, nameLt_connex h3 h4⟩

theorem metric_le_iff {key : RepoRow × LatestRow → Option Int} {a b : RepoRow × LatestRow} :
    metric_le key a b = true ↔
      metric_before key a b = true ∨
        (key a = key b ∧ a.1.name_with_owner = b.1.name_with_owner) := by
  constructor
  · intro h
    rcases Bool.or_eq_true_iff.mp h with h1 | h2
    · exact Or.inl h1
    · by_cases hb : metric_before key a b = true
      · exact Or.inl hb
      · have hba : metric_before key b a = false := by
          cases hx : metric_before key b a with
          | false => rfl
          | true => rw [hx] at h2; simp at h2
        exact Or.inr (metric_before_connex (Bool.eq_false_iff.mpr hb) hba)
  · intro h
    rcases h with h | ⟨hk, hn⟩
    · exact Bool.or_eq_true_iff.mpr (Or.inl h)
    · refine Bool.or_eq_true_iff.mpr (Or.inr ?_)
      have : metric_before key b a = false := by
        rw [Bool.eq_false_iff]
        intro hc
        rcases metric_before_iff.mp hc with h1 | ⟨_, hn2⟩
        · rw [hk, optIntLt_irrefl] at h1; exact Bool.false_ne_true h1
        · rw [hn, nameLt_irrefl] at hn2; exact Bool.false_ne_true hn2
      rw [this]; rfl

theorem metric_le_total (key : RepoRow × LatestRow → Option Int) (a b : RepoRow × LatestRow) :
    metric_le key a b = true ∨ metric_le key b a = true := by
  cases hab : metric_before key b a with
  | false => exact Or.inl (Bool.or_eq_true_iff.mpr (Or.inr (by rw [hab]; rfl)))
  | true => exact Or.inr (Bool.or_eq_true_iff.mpr (Or.inl hab))

theorem metric_le_trans {key : RepoRow × LatestRow → Option Int} {a b c : RepoRow × LatestRow}
    (hab : metric_le key a b = true) (hbc : metric_le key b c = true) :
    metric_le key a c = true := by
  rcases metric_le_iff.mp hab with h1 | ⟨hk1, hn1⟩ <;> rcases metric_le_iff.mp hbc with h2 | ⟨hk2, hn2⟩
  · exact metric_le_iff.mpr (Or.inl (metric_before_trans h1 h2))
  · refine metric_le_iff.mpr (Or.inl ?_)
    rcases metric_before_iff.mp h1 with hx | ⟨hy, hz⟩
    · exact metric_before_iff.mpr (Or.inl (hk2 ▸ hx))
    · exact metric_before_iff.mpr (Or.inr ⟨hy.trans hk2, hn2 ▸ hz⟩)
  · refine metric_le_iff.mpr (Or.inl ?_)
    rcases metric_before_iff.mp h2 with hx | ⟨hy, hz⟩
    · exact metric_before_iff.mpr (Or.inl (hk1 ▸ hx))
    · exact metric_before_iff.mpr (Or.inr ⟨hk1.trans hy, hn1 ▸ hz⟩)
  · exact metric_le_iff.mpr (Or.inr ⟨hk1.trans hk2, hn1.trans hn2⟩)

/-- In a list sorted by `metric_le key` whose entries carry pairwise
distinct names, the number of entries strictly preceding the entry at
position `i` is exactly `i`. -/
theorem sorted_countP_rank (key : RepoRow × LatestRow → Option Int) :
    ∀ (l : List (RepoRow × LatestRow)),
      List.Pairwise (fun a b => metric_le key a b = true) l →
      ((l.map (fun pr => pr.1.name_with_owner)).Nodup) →
      ∀ (i : Nat) (hi : i < l.length),
        l.countP (fun x => metric_before key x (l.get ⟨i, hi⟩)) = i := by
  intro l
  induction l with
  | nil => intro _ _ i hi; simp at hi
  | cons a t ih =>
    intro hp hn i hi
    have hpc := List.pairwise_cons.mp hp
    rw [List.map_cons] at hn
    have hnc := List.nodup_cons.mp hn
    cases i with
    | zero =>
      have hget : (a :: t).get ⟨0, hi⟩ = a := rfl
      have hz : t.countP (fun x => metric_before key x a) = 0 := by
        rw [List.countP_eq_zero]
        intro x hx
        have hle : metric_le key a x = true := hpc.1 x hx
        have hne : a.1.name_with_owner ≠ x.1.name_with_owner := by
          intro he
          exact hnc.1 (he ▸ List.mem_map_of_mem (fun pr => pr.1.name_with_owner) hx)
        rcases metric_le_iff.mp hle with hb | ⟨_, hn2⟩
        · simp [metric_before_asymm hb]
        · exact absurd hn2 hne
      rw [hget, List.countP_cons, hz]
      simp [metric_before_irrefl]
    | succ j =>
      have hget : (a :: t).get ⟨j + 1, hi⟩ = t.get ⟨j, Nat.lt_of_succ_lt_succ hi⟩ := rfl
      have hmem : t.get ⟨j, Nat.lt_of_succ_lt_succ hi⟩ ∈ t := List.get_mem t _ _
      have hle : metric_le key a (t.get ⟨j, Nat.lt_of_succ_lt_succ hi⟩) = true := hpc.1 _ hmem
      have hne : a.1.name_with_owner ≠ (t.get ⟨j, Nat.lt_of_succ_lt_succ hi⟩).1.name_with_owner := by
        intro he
        exact hnc.1 (he ▸ List.mem_map_of_mem (fun pr => pr.1.name_with_owner) hmem)
      have hb : metric_before key a (t.get ⟨j, Nat.lt_of_succ_lt_succ hi⟩) = true := by
        rcases metric_le_iff.mp hle with hb | ⟨_, hn2⟩
        · exact hb
        · exact absurd hn2 hne
      rw [hget, List.countP_cons, ih (List.Pairwise.of_cons hp) hnc.2 j (Nat.lt_of_succ_lt_succ hi)]
      simpa using hb

theorem latest_join_mem {db : DB} {pr : RepoRow × LatestRow} (h : pr ∈ latest_join db) :
    pr.2 ∈ db.repo_latest ∧ pr.1 ∈ db.repo ∧ pr.1.id = pr.2.repo_id := by
  rcases List.mem_filterMap.mp h with ⟨rl, hrl, hmap⟩
  rcases Option.map_eq_some'.mp hmap with ⟨r, hfind, heq⟩
  have hpr : pr = (r, rl) := heq.symm
  subst hpr
  refine ⟨hrl, List.mem_of_find?_eq_some hfind, ?_⟩
  simpa using List.find?_some hfind

theorem latest_join_runs_subset {db : DB} : latest_join_runs db ⊆ latest_join db :=
  fun _ hx => List.mem_of_mem_filter hx

theorem latest_join_runs_eq {db : DB}
    (hruns : ∀ rl ∈ db.repo_latest, db.fetch_run.any (fun fr => fr.id = rl.run_id) = true) :
    latest_join_runs db = latest_join db := by
  unfold latest_join_runs
  rw [List.filter_eq_self]
  intro pr hpr
  exact hruns pr.2 (latest_join_mem hpr).1

theorem rank_before_eq_metric (a b : RepoRow × LatestRow) :
    rank_before a b = metric_before stars_key a b := by
  simp [rank_before, metric_before, stars_key, optIntLt]

/-- The sorted unfiltered stars scan underlying `leaderboard("stars")`. -/
def sortedStars (db : DB) : List (RepoRow × LatestRow) :=
  List.insertionSort (fun a b => metric_le stars_key a b = true) (latest_join_runs db)

/-- The concatenation of the first `npages` pages of an unfiltered
`leaderboard("stars")` scan. -/
def stars_scan_pages (db : DB) (npages : Nat) : List LbItem :=
  ((List.range npages).map (fun (j : Nat) =>
    match leaderboard db "stars" ((j : Int) + 1) none true none none with
    | Except.ok items => items
    | Except.error _ => [])).flatten

theorem leaderboard_stars_eq (db : DB) (page : Int) :
    leaderboard db "stars" page none true none none =
      Except.ok ((paginate (sortedStars db) page).map
        (fun pr => (⟨pr.1, pr.2, none⟩ : LbItem))) := by
  have hbase : leaderboard db "stars" page none true none none =
      Except.ok ((paginate
        (List.insertionSort (fun a b => metric_le stars_key a b = true)
          ((latest_join_runs db).filter (fun pr => matches_filters db none true none none pr)))
        page).map (fun pr => (⟨pr.1, pr.2, none⟩ : LbItem))) := rfl
  have hf : (latest_join_runs db).filter (fun pr => matches_filters db none true none none pr)
      = latest_join_runs db := by
    rw [List.filter_eq_self]
    intro a _
    rfl
  rw [hbase, hf]
  rfl

theorem paginate_take {α : Type} (l : List α) :
    ∀ n : Nat,
      ((List.range n).map (fun (j : Nat) => paginate l ((j : Int) + 1))).flatten = l.take (n * page_size) := by
  intro n
  induction n with
  | zero => simp
  | succ m ih =>
    rw [List.range_succ, List.map_append, List.flatten_append, ih]
    simp only [List.map_cons, List.map_nil, List.flatten_cons, List.flatten_nil, List.append_nil]
    have hoff : ((((m : Int) + 1) - 1) * (page_size : Nat)).toNat = m * page_size := by
      have h1 : (((m : Int) + 1) - 1) * ((page_size : Nat) : Int) = ((m * page_size : Nat) : Int) := by
        push_cast
        ring
      rw [h1, Int.toNat_natCast]
    show l.take (m * page_size) ++
        (l.drop ((((m : Int) + 1 - 1) * (page_size : Nat)).toNat)).take page_size
      = l.take ((m + 1) * page_size)
    rw [hoff, Nat.succ_mul, List.take_add]

/-- Claim C4: for every repo present in the database,
`get_global_rank(nameWithOwner)` returns 1 plus the number of repos
ranked strictly before it under stars DESC, name ASC (the correlated
count), and this value equals the 1-based position of that repo in the
concatenation of pages of an unfiltered `leaderboard("stars")` scan.
The hypotheses are the schema constraints: `name_with_owner` is unique
and every `repo_latest.run_id` references an existing `fetch_run` row. -/
theorem c4_global_rank_matches_scan_position (db : DB)
    (hnames : ((latest_join db).map (fun pr => pr.1.name_with_owner)).Nodup)
    (hruns : ∀ rl ∈ db.repo_latest, db.fetch_run.any (fun fr => fr.id = rl.run_id) = true) :
    (∀ nm pr, (latest_join db).find? (fun x => x.1.name_with_owner = nm) = some pr →
        get_global_rank db nm
          = some ((latest_join db).countP (fun x => rank_before x pr) + 1))
    ∧ (∀ npages, (sortedStars db).length ≤ npages * page_size →
        stars_scan_pages db npages
          = (sortedStars db).map (fun pr => (⟨pr.1, pr.2, none⟩ : LbItem)))
    ∧ (∀ i (hi : i < (sortedStars db).length),
        get_global_rank db ((sortedStars db).get ⟨i, hi⟩).1.name_with_owner = some (i + 1)) := by
  have hjr_eq : latest_join_runs db = latest_join db := latest_join_runs_eq hruns
  have hperm : (sortedStars db).Perm (latest_join_runs db) := List.perm_insertionSort _ _
  refine ⟨?_, ?_, ?_⟩
  · intro nm pr hpr
    simp only [get_global_rank, hpr]
  · intro npages hlen
    unfold stars_scan_pages
    have hmap : (List.range npages).map (fun (j : Nat) =>
        match leaderboard db "stars" ((j : Int) + 1) none true none none with
        | Except.ok items => items
        | Except.error _ => [])
        = (List.range npages).map (fun (j : Nat) =>
            (paginate (sortedStars db) ((j : Int) + 1)).map
              (fun pr => (⟨pr.1, pr.2, none⟩ : LbItem))) := by
      apply List.map_congr_left
      intro j _
      rw [leaderboard_stars_eq]
    rw [hmap]
    have hcomp : (List.range npages).map (fun (j : Nat) =>
        (paginate (sortedStars db) ((j : Int) + 1)).map
          (fun pr => (⟨pr.1, pr.2, none⟩ : LbItem)))
        = ((List.range npages).map (fun (j : Nat) => paginate (sortedStars db) ((j : Int) + 1))).map
            (List.map (fun pr => (⟨pr.1, pr.2, none⟩ : LbItem))) := by
      rw [List.map_map]
      rfl
    rw [hcomp, ← List.map_flatten, paginate_take, List.take_of_length_le hlen]
  · intro i hi
    haveI : IsTotal (RepoRow × LatestRow) (fun a b => metric_le stars_key a b = true) :=
      ⟨metric_le_total _⟩
    haveI : IsTrans (RepoRow × LatestRow) (fun a b => metric_le stars_key a b = true) :=
      ⟨fun _ _ _ => metric_le_trans⟩
    have hsorted : List.Pairwise (fun a b => metric_le stars_key a b = true) (sortedStars db) :=
      List.sorted_insertionSort _ _
    have hnames_s : ((sortedStars db).map (fun pr => pr.1.name_with_owner)).Nodup := by
      rw [(hperm.map (fun pr => pr.1.name_with_owner)).nodup_iff, hjr_eq]
      exact hnames
    have hmem_e : (sortedStars db).get ⟨i, hi⟩ ∈ latest_join db := by
      rw [← hjr_eq]
      exact hperm.subset (List.get_mem _ _ _)
    have hfound : ((latest_join db).find?
        (fun x => x.1.name_with_owner = ((sortedStars db).get ⟨i, hi⟩).1.name_with_owner)).isSome
        = true :=
      List.find?_isSome.mpr ⟨_, hmem_e, by simp⟩
    obtain ⟨pr, hpr⟩ := Option.isSome_iff_exists.mp hfound
    have hprmem := List.mem_of_find?_eq_some hpr
    have hprname : pr.1.name_with_owner = ((sortedStars db).get ⟨i, hi⟩).1.name_with_owner := by
      simpa using List.find?_some hpr
    have hpr_eq : pr = (sortedStars db).get ⟨i, hi⟩ :=
      List.inj_on_of_nodup_map hnames hprmem hmem_e hprname
    have hcount : (latest_join db).countP (fun x => rank_before x pr) = i := by
      subst hpr_eq
      have h1 : (latest_join db).countP (fun x => rank_before x ((sortedStars db).get ⟨i, hi⟩))
          = (latest_join db).countP
              (fun x => metric_before stars_key x ((sortedStars db).get ⟨i, hi⟩)) :=
        List.countP_congr (fun x _ => by rw [rank_before_eq_metric])
      rw [h1, ← hjr_eq, ← hperm.countP_eq]
      exact sorted_countP_rank stars_key (sortedStars db) hsorted hnames_s i hi
    simp only [get_global_rank, hpr, hcount]

theorem newStars_of_nonneg (db : DB) (rl : LatestRow) (b : Nat) : 0 ≤ newStars_of db rl b :=
  le_max_right _ _

theorem base_hist_row_unique {db : DB} {repo : Int} {b : Nat} {h : HistRow}
    (hmem : h ∈ db.repo_metrics_hist) (hrep : h.repo_id = repo)
    (h1 : h.start_run_id ≤ b) (h2 : b ≤ h.end_run_id)
    (huniq : ∀ h2 ∈ db.repo_metrics_hist, h2.repo_id = repo →
      h2.start_run_id ≤ b → b ≤ h2.end_run_id → h2 = h) :
    base_hist_row db repo b = some h := by
  unfold base_hist_row
  set p : HistRow → Bool :=
    fun x => x.repo_id = repo && x.start_run_id ≤ b && b ≤ x.end_run_id with hp
  have hmf : h ∈ db.repo_metrics_hist.filter p := by
    rw [List.mem_filter]
    exact ⟨hmem, by simp [hp, hrep, h1, h2]⟩
  have hall : ∀ x ∈ db.repo_metrics_hist.filter p, x = h := by
    intro x hx
    rw [List.mem_filter] at hx
    have hx2 := hx.2
    simp only [hp, Bool.and_eq_true, decide_eq_true_eq] at hx2
    exact huniq x hx.1 hx2.1.1 hx2.1.2 hx2.2
  have hperm := List.perm_insertionSort
    (fun a b : HistRow => a.end_run_id ≤ b.end_run_id) (db.repo_metrics_hist.filter p)
  have hall_s : ∀ x ∈ List.insertionSort (fun a b : HistRow => a.end_run_id ≤ b.end_run_id)
      (db.repo_metrics_hist.filter p), x = h :=
    fun x hx => hall x (hperm.subset hx)
  have hne : List.insertionSort (fun a b : HistRow => a.end_run_id ≤ b.end_run_id)
      (db.repo_metrics_hist.filter p) ≠ [] := by
    intro hcon
    have := hperm.symm.subset hmf
    rw [hcon] at this
    exact List.not_mem_nil h this
  cases hs : List.insertionSort (fun a b : HistRow => a.end_run_id ≤ b.end_run_id)
      (db.repo_metrics_hist.filter p) with
  | nil => exact absurd hs hne
  | cons x xs =>
    have : x = h := hall_s x (hs ▸ List.mem_cons_self x xs)
    simp [this]

theorem base_hist_row_none {db : DB} {repo : Int} {b : Nat}
    (hnone : ∀ h ∈ db.repo_metrics_hist, h.repo_id = repo →
      ¬(h.start_run_id ≤ b ∧ b ≤ h.end_run_id)) :
    base_hist_row db repo b = none := by
  unfold base_hist_row
  have hf : db.repo_metrics_hist.filter
      (fun x => x.repo_id = repo && x.start_run_id ≤ b && b ≤ x.end_run_id) = [] := by
    rw [List.filter_eq_nil_iff]
    intro x hx
    simp only [Bool.and_eq_true, decide_eq_true_eq, not_and]
    intro hr hb
    exact hnone x hx hr.1 ⟨hr.2, hb⟩
  rw [hf]
  rfl

theorem trending_rows_mem {db : DB} {ws page : Int} {q : Option String} {indesc : Bool}
    {lang topic : Option String} {e : TrendEntry}
    (h : e ∈ trending_rows db ws page q indesc lang topic) :
    e.newStars = newStars_of db e.latest (base_run_id_for_window db ws) := by
  unfold trending_rows paginate at h
  have h1 : e ∈ List.insertionSort (fun a b => trend_le a b = true)
      (((latest_join_runs db).filter (fun pr => matches_filters db q indesc lang topic pr)).map
        (fun pr => ⟨pr.1, pr.2, newStars_of db pr.2 (base_run_id_for_window db ws)⟩)) :=
    List.drop_subset _ _ (List.take_subset _ _ h)
  have h2 := (List.perm_insertionSort _ _).subset h1
  rcases List.mem_map.mp h2 with ⟨pr, _, heq⟩
  rw [← heq]

/-- Claim C2: every row of the trending leaderboard carries
`newStars = max(0, currentStars - baseStars)` where `baseStars` comes
from the history row covering the base run (current stars when no row
covers it); hence `newStars` is never negative and is zero for a repo
first observed after the base run. -/
theorem c2_trending_floor (db : DB) (ws page : Int) (q : Option String) (indesc : Bool)
    (lang topic : Option String) (e : TrendEntry)
    (he : e ∈ trending_rows db ws page q indesc lang topic) :
    0 ≤ e.newStars
    ∧ (∀ h, h ∈ db.repo_metrics_hist → h.repo_id = e.latest.repo_id →
        h.start_run_id ≤ base_run_id_for_window db ws →
        base_run_id_for_window db ws ≤ h.end_run_id →
        (∀ h2 ∈ db.repo_metrics_hist, h2.repo_id = e.latest.repo_id →
          h2.start_run_id ≤ base_run_id_for_window db ws →
          base_run_id_for_window db ws ≤ h2.end_run_id → h2 = h) →
        e.newStars = max 0 (e.latest.stars - h.stars))
    ∧ ((∀ h ∈ db.repo_metrics_hist, h.repo_id = e.latest.repo_id →
          ¬(h.start_run_id ≤ base_run_id_for_window db ws ∧
            base_run_id_for_window db ws ≤ h.end_run_id)) →
        e.newStars = 0)
    ∧ ((∀ h ∈ db.repo_metrics_hist, h.repo_id = e.latest.repo_id →
          base_run_id_for_window db ws < h.start_run_id) →
        e.newStars = 0) := by
  have hns := trending_rows_mem he
  have hzero : (∀ h ∈ db.repo_metrics_hist, h.repo_id = e.latest.repo_id →
      ¬(h.start_run_id ≤ base_run_id_for_window db ws ∧
        base_run_id_for_window db ws ≤ h.end_run_id)) →
      e.newStars = 0 := by
    intro hnone
    rw [hns]
    unfold newStars_of
    rw [base_hist_row_none hnone]
    simp
  refine ⟨?_, ?_, hzero, ?_⟩
  · rw [hns]
    exact newStars_of_nonneg db e.latest _
  · intro h hmem hrep hs hb huniq
    rw [hns]
    unfold newStars_of
    rw [base_hist_row_unique hmem hrep hs hb huniq]
    simp [max_comm]
  · intro hafter
    refine hzero ?_
    intro h hmem hrep hcov
    exact absurd hcov.1 (Nat.not_le_of_lt (hafter h hmem hrep))

theorem fresh_filter_append (p : List Int) (as bs : List Node) :
    fresh_filter p (as ++ bs)
      = ((fresh_filter (fresh_filter p as).1 bs).1,
         (fresh_filter p as).2 ++ (fresh_filter (fresh_filter p as).1 bs).2) := by
  induction as generalizing p with
  | nil => simp [fresh_filter]
  | cons n ns ih =>
    cases hid : n.databaseId with
    | none => simp [fresh_filter, hid, ih]
    | some i =>
      by_cases hle : i ≤ 0
      · simp [fresh_filter, hid, hle, ih]
      · by_cases hc : i ∈ p
        · simp [fresh_filter, hid, hle, hc, ih]
        · simp [fresh_filter, hid, hle, hc, ih]

theorem fresh_filter_processed_mono {i : Int} (p : List Int) (l : List Node)
    (h : i ∈ p) : i ∈ (fresh_filter p l).1 := by
  induction l generalizing p with
  | nil => exact h
  | cons n ns ih =>
    cases hid : n.databaseId with
    | none => simpa [fresh_filter, hid] using ih p h
    | some j =>
      by_cases hle : j ≤ 0
      · simpa [fresh_filter, hid, hle] using ih p h
      · by_cases hc : j ∈ p
        · simpa [fresh_filter, hid, hle, hc] using ih p h
        · simpa [fresh_filter, hid, hle, hc] using ih (j :: p) (List.mem_cons_of_mem j h)

theorem fresh_filter_skip {n : Node} {i : Int} (p : List Int) (l : List Node)
    (hid : n.databaseId = some i) (hin : i ≤ 0 ∨ i ∈ p) :
    fresh_filter p (n :: l) = fresh_filter p l := by
  by_cases hle : i ≤ 0
  · simp [fresh_filter, hid, hle]
  · have hmem : i ∈ p := hin.resolve_left hle
    simp [fresh_filter, hid, hle, hmem]

theorem upsert_congr_filter (s : EngineState) (fetched_at : Int) {l1 l2 : List Node}
    (h : fresh_filter s.processed_repo_ids l1 = fresh_filter s.processed_repo_ids l2) :
    upsert_from_github_nodes s fetched_at l1 = upsert_from_github_nodes s fetched_at l2 := by
  unfold upsert_from_github_nodes
  rw [h]

/-- Claim C8: within one pass, a snapshot whose repo id was already
processed is silently dropped, so ingesting a snapshot twice in a pass
(whether as an in-batch duplicate or after an earlier batch already
processed the id) produces the same engine state as ingesting it
once. -/
theorem c8_reingestion_idempotent (s : EngineState) (fetched_at : Int)
    (xs ys zs : List Node) (n : Node) (i : Int) (hid : n.databaseId = some i) :
    upsert_from_github_nodes s fetched_at (xs ++ n :: ys ++ n :: zs)
        = upsert_from_github_nodes s fetched_at (xs ++ n :: ys ++ zs)
    ∧ (i ∈ s.processed_repo_ids →
        upsert_from_github_nodes s fetched_at (xs ++ n :: zs)
          = upsert_from_github_nodes s fetched_at (xs ++ zs)) := by
  constructor
  · apply upsert_congr_filter
    have hstep : i ≤ 0 ∨ i ∈ (fresh_filter s.processed_repo_ids (xs ++ n :: ys)).1 := by
      by_cases hle : i ≤ 0
      · exact Or.inl hle
      · right
        rw [fresh_filter_append _ xs (n :: ys)]
        by_cases hc : i ∈ (fresh_filter s.processed_repo_ids xs).1
        · rw [fresh_filter_skip _ _ hid (Or.inr hc)]
          exact fresh_filter_processed_mono _ _ hc
        · have hone : fresh_filter (fresh_filter s.processed_repo_ids xs).1 (n :: ys)
              = ((fresh_filter (i :: (fresh_filter s.processed_repo_ids xs).1) ys).1,
                 n :: (fresh_filter (i :: (fresh_filter s.processed_repo_ids xs).1) ys).2) := by
            simp [fresh_filter, hid, hle, hc]
          rw [hone]
          exact fresh_filter_processed_mono _ _ (List.mem_cons_self _ _)
    rw [fresh_filter_append _ (xs ++ n :: ys) (n :: zs),
        fresh_filter_append _ (xs ++ n :: ys) zs,
        fresh_filter_skip _ _ hid hstep]
  · intro hmem
    apply upsert_congr_filter
    rw [fresh_filter_append _ xs (n :: zs), fresh_filter_append _ xs zs,
        fresh_filter_skip _ _ hid (Or.inr (fresh_filter_processed_mono _ _ hmem))]

/-- A well-formed example snapshot for repo `a/x`. -/
def node_ax : Node :=
  ⟨some 1, some "a/x", some 100, none, none, some 10, some 2, some 3, some 50,
   none, none, false, some "Go", ["database"]⟩

/-- A malformed snapshot: valid `databaseId` but no `nameWithOwner`. -/
def node_noname : Node :=
  ⟨some 5, none, none, none, none, some 1, none, none, none, none, none, false, none, []⟩

/-- A well-formed example snapshot for repo `b/y`. -/
def node_by : Node :=
  ⟨some 2, some "b/y", some 100, none, none, some 20, some 2, some 3, some 50,
   none, none, false, some "Go", []⟩

/-- A fresh engine over an empty store. -/
def engine0 : EngineState := ⟨DB.empty, none, []⟩

/-- The store after ingesting `a/x` and `b/y` in one pass. -/
def db_two : DB :=
  match upsert_from_github_nodes engine0 0 [node_ax, node_by] with
  | Except.ok s => s.db
  | Except.error _ => DB.empty

/-- Claim C3 (code bug): a snapshot that carries an id but no
`nameWithOwner` is not skipped; reading the field raises `KeyError`,
faulting the whole batch, so the well-formed sibling snapshot is not
ingested either. The same batch without the malformed snapshot
succeeds. -/
theorem c3_missing_name_faults_batch :
    upsert_from_github_nodes engine0 0 [node_ax, node_noname]
        = Except.error "KeyError: nameWithOwner"
    ∧ (upsert_from_github_nodes engine0 0 [node_ax]).toOption ≠ none := by
  constructor
  · rfl
  · decide

theorem leaderboard_error_iff (db : DB) (metric : String) (page : Int) (q : Option String)
    (indesc : Bool) (lang topic : Option String) :
    (leaderboard db metric page q indesc lang topic).toOption = none
      ↔ trending_map metric = none ∧ metric_map metric = none := by
  unfold leaderboard
  cases htr : trending_map metric with
  | some ws => simp [Except.toOption]
  | none =>
    cases hm : metric_map metric with
    | some key => simp [Except.toOption]
    | none => simp [Except.toOption]

/-- Claim C5 (amended): the leaderboard fails with InvalidArgument
(surfacing as HTTP 400) exactly when the metric is neither a static
metric key nor a trending key and the page passed request validation;
a non-positive page is rejected by FastAPI request validation (HTTP
422) before the handler runs, and the query layer itself never errors
on the page argument. -/
theorem c5_invalid_argument_iff (db : DB) (metric : String) (page : Int)
    (q : Option String) (indesc : Bool) (lang topic : Option String) :
    (api_leaderboard db metric page q indesc lang topic = ApiResponse.badRequest
      ↔ 1 ≤ page ∧ trending_map metric = none ∧ metric_map metric = none)
    ∧ (page < 1 →
        api_leaderboard db metric page q indesc lang topic = ApiResponse.unprocessable)
    ∧ ((leaderboard db metric page q indesc lang topic).toOption = none
      ↔ trending_map metric = none ∧ metric_map metric = none) := by
  refine ⟨⟨?_, ?_⟩, ?_, leaderboard_error_iff db metric page q indesc lang topic⟩
  · intro h
    unfold api_leaderboard at h
    by_cases hp : page < 1
    · rw [if_pos hp] at h
      exact absurd h (by simp)
    · rw [if_neg hp] at h
      refine ⟨Int.not_lt.mp hp, ?_⟩
      cases hl : leaderboard db metric page q indesc lang topic with
      | error e =>
        have : (leaderboard db metric page q indesc lang topic).toOption = none := by
          rw [hl]; rfl
        exact (leaderboard_error_iff db metric page q indesc lang topic).mp this
      | ok items =>
        rw [hl] at h
        exact absurd h (by simp)
  · rintro ⟨hp, htr, hm⟩
    unfold api_leaderboard
    rw [if_neg (Int.not_lt.mpr hp)]
    have hl : leaderboard db metric page q indesc lang topic
        = Except.error ("Unsupported metric: " ++ metric) := by
      unfold leaderboard
      rw [htr, hm]
    rw [hl]
  · intro hp
    unfold api_leaderboard
    rw [if_pos hp]

/-- Claim C5 counterexample: with the recognized metric `stars` and the
non-positive page 0, the operation does not fail with InvalidArgument:
the query layer succeeds (SQLite treats the negative OFFSET as zero)
and the HTTP layer rejects the page with 422 instead of 400. -/
theorem c5_counterexample_nonpositive_page :
    leaderboard DB.empty "stars" 0 none true none none = Except.ok []
    ∧ api_leaderboard DB.empty "stars" 0 none true none none = ApiResponse.unprocessable
    ∧ api_leaderboard DB.empty "stars" 0 none true none none ≠ ApiResponse.badRequest := by
  refine ⟨rfl, rfl, ?_⟩
  decide

theorem c5_witness :
    api_leaderboard DB.empty "bogus" 1 none true none none = ApiResponse.badRequest
    ∧ api_leaderboard DB.empty "stars" 0 none true none none = ApiResponse.unprocessable := by
  constructor
  · exact (c5_invalid_argument_iff DB.empty "bogus" 1 none true none none).1.mpr
      ⟨by decide, rfl, rfl⟩
  · exact (c5_invalid_argument_iff DB.empty "stars" 0 none true none none).2.1 (by decide)

theorem lookup_miss_none {db : DB} {nm : String} (limit : Nat)
    (hmiss : ∀ r ∈ db.repo, r.name_with_owner ≠ nm) :
    get_repo_latest db nm = none ∧ get_global_rank db nm = none
      ∧ history_segments db nm limit = [] := by
  have hjoin : ∀ pr ∈ latest_join db, ¬(pr.1.name_with_owner = nm) :=
    fun pr hpr => hmiss pr.1 (latest_join_mem hpr).2.1
  refine ⟨?_, ?_, ?_⟩
  · unfold get_repo_latest
    have hfind : (latest_join_runs db).find? (fun pr => pr.1.name_with_owner = nm) = none := by
      rw [List.find?_eq_none]
      intro pr hpr
      simp only [decide_eq_true_eq]
      exact hjoin pr (latest_join_runs_subset hpr)
    rw [hfind]
  · unfold get_global_rank
    have hfind : (latest_join db).find? (fun pr => pr.1.name_with_owner = nm) = none := by
      rw [List.find?_eq_none]
      intro pr hpr
      simp only [decide_eq_true_eq]
      exact hjoin pr hpr
    rw [hfind]
  · unfold history_segments
    have hfind : db.repo.find? (fun r => r.name_with_owner = nm) = none := by
      rw [List.find?_eq_none]
      intro r hr
      simp only [decide_eq_true_eq]
      exact hmiss r hr
    rw [hfind]

/-- Claim C9 (amended): a repo lookup miss surfaces 404 from
`GET /api/repo` and from the short-url redirect; the rank badge
endpoint returns 200 with a synthesized not-found badge; and
`GET /api/repo/history` also returns 200 — with an empty segment
list — rather than 404. -/
theorem c9_lookup_miss_statuses (db : DB) (nm owner rp : String)
    (hmiss : ∀ r ∈ db.repo, r.name_with_owner ≠ nm) :
    api_repo db nm = ApiResponse.notFound
    ∧ api_rank db nm = ApiResponse.ok ⟨1, "rank", "repo not found", "inactive", none⟩
    ∧ api_repo_history db nm = ApiResponse.ok ⟨nm, []⟩
    ∧ (owner ++ "/" ++ rp = nm → repo_short_url db owner rp = ApiResponse.notFound) := by
  obtain ⟨h1, h2, h3⟩ := lookup_miss_none 2920 hmiss
  refine ⟨?_, ?_, ?_, ?_⟩
  · unfold api_repo
    rw [h1]
  · unfold api_rank
    rw [h2]
  · unfold api_repo_history
    rw [h3]
  · intro hnm
    unfold repo_short_url
    rw [hnm]
    simp only [h2]

/-- Claim C9 counterexample: `GET /api/repo/history` with an unknown
name returns 200 with an empty segment list, not 404. -/
theorem c9_counterexample_history_is_200 :
    api_repo_history DB.empty "a/x" = ApiResponse.ok ⟨"a/x", []⟩
    ∧ api_repo_history DB.empty "a/x" ≠ ApiResponse.notFound := by
  exact ⟨rfl, by decide⟩

theorem c9_witness :
    api_repo DB.empty "a/x" = ApiResponse.notFound
    ∧ api_rank DB.empty "a/x" = ApiResponse.ok ⟨1, "rank", "repo not found", "inactive", none⟩
    ∧ api_repo_history DB.empty "a/x" = ApiResponse.ok ⟨"a/x", []⟩
    ∧ repo_short_url DB.empty "a" "x" = ApiResponse.notFound := by
  have h := c9_lookup_miss_statuses DB.empty "a/x" "a" "x" (by decide)
  exact ⟨h.1, h.2.1, h.2.2.1, h.2.2.2 rfl⟩

/-- Snapshot claiming the name `old/x` under the new id 8. -/
def node8_oldx : Node :=
  ⟨some 8, some "old/x", some 100, none, none, some 20, some 2, some 3, some 50,
   none, none, false, some "Go", ["database"]⟩

/-- A store holding repo 7 under the name `old/x`, with latest, history
and topic rows. -/
def db_old7 : DB :=
  { repo := [⟨7, "old/x", none, none, some 5⟩]
    language := []
    topic := [(1, "database")]
    fetch_run := [⟨1, 0⟩]
    repo_latest := [⟨7, 1, 1, 10, 2, 3, none, none, none, false, none⟩]
    repo_metrics_hist := [⟨7, 1, 1, 10, 2, 3, none⟩]
    repo_topic_latest := [(7, 1)] }

/-- The store after ingesting the (id=8, "old/x") snapshot over
`db_old7`. -/
def db_after_rename : DB :=
  match upsert_from_github_nodes ⟨db_old7, none, []⟩ 100 [node8_oldx] with
  | Except.ok s => s.db
  | Except.error _ => DB.empty

/-- Claim C1 counterexample: ingesting snapshot (id=8, name "old/x")
over Repo(id=7, name "old/x") renames repo 7 to "old/x-renamed-7" — the
rename SQL appends the existing row id column — not "old/x-renamed-8"
(the incoming snapshot id) as the claim states. -/
theorem c1_counterexample_rename_suffix :
    (db_after_rename.repo.filter (fun r => r.id = 7)).map (fun r => r.name_with_owner)
        = ["old/x-renamed-7"]
    ∧ db_after_rename.repo.any (fun r => r.name_with_owner = "old/x-renamed-8") = false := by
  exact ⟨rfl, by decide⟩

/-- Claim C10: `get_repo_latest` misses whenever the repo has no
RepoLatest row even though its Repo row exists; in particular a repo
disassociated by rename-conflict resolution is 404 from `/api/repo`
under its renamed name. -/
theorem c10_no_latest_row_not_found (db : DB) (nm : String) (r : RepoRow)
    (_hr : r ∈ db.repo) (_hname : r.name_with_owner = nm)
    (huniq : ∀ r2 ∈ db.repo, r2.name_with_owner = nm → r2 = r)
    (hnolatest : ∀ rl ∈ db.repo_latest, rl.repo_id ≠ r.id) :
    get_repo_latest db nm = none ∧ api_repo db nm = ApiResponse.notFound := by
  have hjoin : ∀ pr ∈ latest_join db, ¬(pr.1.name_with_owner = nm) := by
    intro pr hpr hcon
    have hm := latest_join_mem hpr
    have hpr1 : pr.1 = r := huniq pr.1 hm.2.1 hcon
    exact hnolatest pr.2 hm.1 (by rw [← hm.2.2, hpr1])
  have hnone : get_repo_latest db nm = none := by
    unfold get_repo_latest
    have hfind : (latest_join_runs db).find? (fun pr => pr.1.name_with_owner = nm) = none := by
      rw [List.find?_eq_none]
      intro pr hpr
      simp only [decide_eq_true_eq]
      exact hjoin pr (latest_join_runs_subset hpr)
    rw [hfind]
  refine ⟨hnone, ?_⟩
  unfold api_repo
  rw [hnone]

theorem c10_witness :
    get_repo_latest db_after_rename "old/x-renamed-7" = none
    ∧ api_repo db_after_rename "old/x-renamed-7" = ApiResponse.notFound :=
  c10_no_latest_row_not_found db_after_rename "old/x-renamed-7"
    ⟨7, "old/x-renamed-7", none, none, some 5⟩ (by decide) (by decide) (by decide) (by decide)

/-- The `a/x` snapshot with its stars grown to 20. -/
def node_ax20 : Node :=
  ⟨some 1, some "a/x", some 100, none, none, some 20, some 2, some 3, some 50,
   none, none, false, some "Go", ["database"]⟩

/-- The store after two passes: `a/x` at 10 stars (t=0), then at 20
stars one day and an hour later. -/
def db_trend : DB :=
  match upsert_from_github_nodes engine0 0 [node_ax] with
  | Except.ok s =>
    match upsert_from_github_nodes ⟨s.db, none, []⟩ 90000 [node_ax20] with
    | Except.ok s2 => s2.db
    | Except.error _ => DB.empty
  | Except.error _ => DB.empty

/-- The trending row the `trending24h` scan produces over `db_trend`. -/
def c2e : TrendEntry :=
  ⟨⟨1, "a/x", none, none, some 100⟩,
   ⟨1, 2, 2, 20, 2, 3, some 50, none, none, false, some 1⟩, 10⟩

/-- The history segment of `db_trend` covering the base run. -/
def c2h : HistRow := ⟨1, 1, 1, 10, 2, 3, some 50⟩

theorem c2_witness :
    0 ≤ c2e.newStars ∧ c2e.newStars = max 0 (c2e.latest.stars - c2h.stars) := by
  have h := c2_trending_floor db_trend 86400 1 none true none none c2e (by decide)
  exact ⟨h.1, h.2.1 c2h (by decide) (by decide) (by decide) (by decide) (by decide)⟩

theorem c4_witness :
    get_global_rank db_two "b/y" = some 1
    ∧ get_global_rank db_two "a/x" = some 2
    ∧ stars_scan_pages db_two 1
        = (sortedStars db_two).map (fun pr => (⟨pr.1, pr.2, none⟩ : LbItem)) := by
  have h := c4_global_rank_matches_scan_position db_two (by decide) (by decide)
  refine ⟨?_, ?_, h.2.1 1 (by decide)⟩
  · have h0 : (0 : Nat) < (sortedStars db_two).length := by decide
    have hpos := h.2.2 0 h0
    rwa [(by rfl : ((sortedStars db_two).get ⟨0, h0⟩).1.name_with_owner = "b/y")] at hpos
  · have h1 : (1 : Nat) < (sortedStars db_two).length := by decide
    have hpos := h.2.2 1 h1
    rwa [(by rfl : ((sortedStars db_two).get ⟨1, h1⟩).1.name_with_owner = "a/x")] at hpos

theorem c8_witness :
    upsert_from_github_nodes engine0 0 ([] ++ node_ax :: [] ++ node_ax :: [])
        = upsert_from_github_nodes engine0 0 ([] ++ node_ax :: [] ++ []) :=
  (c8_reingestion_idempotent engine0 0 [] [] [] node_ax 1 rfl).1

/-- The history row and the latest row agree on repo, segment start and
the metric quadruple (spec invariant 2, "latest consistency"). -/
def seg_matches (h : HistRow) (rl : LatestRow) : Prop :=
  h.repo_id = rl.repo_id ∧ h.start_run_id = rl.history_start_run_id ∧
  h.stars = rl.stars ∧ h.forks = rl.forks ∧ h.watchers = rl.watchers ∧
  h.disk_usage = rl.disk_usage

/-- Spec invariant 2: every RepoLatest row has a RepoMetricsHist row
with `startRunId = historyStartRunId` carrying the same quadruple. -/
def latest_hist_inv (db : DB) : Prop :=
  ∀ rl ∈ db.repo_latest, ∃ h ∈ db.repo_metrics_hist, seg_matches h rl

/-- Two history rows equal except possibly in `end_run_id`. -/
def sameSeg (h2 h : HistRow) : Prop :=
  h2.repo_id = h.repo_id ∧ h2.start_run_id = h.start_run_id ∧ h2.stars = h.stars ∧
  h2.forks = h.forks ∧ h2.watchers = h.watchers ∧ h2.disk_usage = h.disk_usage

theorem sameSeg_trans {h3 h2 h : HistRow} (ha : sameSeg h3 h2) (hb : sameSeg h2 h) :
    sameSeg h3 h :=
  ⟨ha.1.trans hb.1, ha.2.1.trans hb.2.1, ha.2.2.1.trans hb.2.2.1,
   ha.2.2.2.1.trans hb.2.2.2.1, ha.2.2.2.2.1.trans hb.2.2.2.2.1,
   ha.2.2.2.2.2.trans hb.2.2.2.2.2⟩

theorem sameSeg_matches {h2 h : HistRow} {rl : LatestRow}
    (h12 : sameSeg h2 h) (hm : seg_matches h rl) : seg_matches h2 rl :=
  ⟨h12.1.trans hm.1, h12.2.1.trans hm.2.1, h12.2.2.1.trans hm.2.2.1,
   h12.2.2.2.1.trans hm.2.2.2.1, h12.2.2.2.2.1.trans hm.2.2.2.2.1,
   h12.2.2.2.2.2.trans hm.2.2.2.2.2⟩

theorem conflict_delete_subset {α : Type} (proj : α → Int) (repos : List RepoRow) :
    ∀ (pairs : List (String × Int)) (init : List α) (x : α),
      x ∈ conflict_delete proj repos pairs init → x ∈ init := by
  intro pairs
  induction pairs with
  | nil => intro init x h; exact h
  | cons p ps ih => intro init x h; exact List.mem_of_mem_filter (ih _ x h)

theorem delete_latest_conflicts_subset {repos : List RepoRow} {pairs : List (String × Int)}
    {latest : List LatestRow} {rl : LatestRow}
    (h : rl ∈ delete_latest_conflicts repos pairs latest) : rl ∈ latest :=
  conflict_delete_subset (fun (x : LatestRow) => x.repo_id) repos pairs latest rl h

theorem delete_topic_conflicts_subset {repos : List RepoRow} {pairs : List (String × Int)}
    {rtl : List (Int × Nat)} {pr : Int × Nat}
    (h : pr ∈ delete_topic_conflicts repos pairs rtl) : pr ∈ rtl :=
  conflict_delete_subset (fun (x : Int × Nat) => x.1) repos pairs rtl pr h

theorem upsert_step_mem {latest : List LatestRow} {row rl : LatestRow}
    (h : rl ∈ (if latest.any (fun x => x.repo_id = row.repo_id)
        then latest.map (fun x => if x.repo_id = row.repo_id then row else x)
        else latest ++ [row])) :
    rl ∈ latest ∨ rl = row := by
  split at h
  · rcases List.mem_map.mp h with ⟨x, hx, heq⟩
    by_cases hid : x.repo_id = row.repo_id
    · rw [if_pos hid] at heq
      exact Or.inr heq.symm
    · rw [if_neg hid] at heq
      exact Or.inl (heq ▸ hx)
  · rcases List.mem_append.mp h with hx | hx
    · exact Or.inl hx
    · exact Or.inr (List.mem_singleton.mp hx)

theorem apply_latest_upserts_mem :
    ∀ (rows : List LatestRow) (latest : List LatestRow) (rl : LatestRow),
      rl ∈ apply_latest_upserts latest rows → rl ∈ latest ∨ rl ∈ rows := by
  intro rows
  induction rows with
  | nil => intro latest rl h; exact Or.inl h
  | cons row rest ih =>
    intro latest rl h
    rcases ih _ rl h with hstep | hrest
    · rcases upsert_step_mem hstep with hl | he
      · exact Or.inl hl
      · exact Or.inr (he ▸ List.mem_cons_self row rest)
    · exact Or.inr (List.mem_cons_of_mem row hrest)

theorem insert_hist_rows_ok :
    ∀ (rows hist hist2 : List HistRow),
      insert_hist_rows hist rows = Except.ok hist2 → hist2 = hist ++ rows := by
  intro rows
  induction rows with
  | nil =>
    intro hist hist2 h
    cases h
    simp
  | cons row rest ih =>
    intro hist hist2 h
    unfold insert_hist_rows at h
    split at h
    · simp at h
    · have hres := ih (hist ++ [row]) hist2 h
      rw [hres]
      simp

theorem apply_hist_extends_preserves :
    ∀ (ext : List (Nat × Int × Nat)) (hist : List HistRow), ∀ h ∈ hist,
      ∃ h2 ∈ apply_hist_extends hist ext, sameSeg h2 h := by
  intro ext
  induction ext with
  | nil => intro hist h hh; exact ⟨h, hh, rfl, rfl, rfl, rfl, rfl, rfl⟩
  | cons e es ih =>
    intro hist h hh
    have hm : (if h.repo_id = e.2.1 && h.start_run_id = e.2.2
          then { h with end_run_id := e.1 } else h)
        ∈ hist.map (fun x => if x.repo_id = e.2.1 && x.start_run_id = e.2.2
          then { x with end_run_id := e.1 } else x) :=
      List.mem_map_of_mem _ hh
    obtain ⟨h2, hmem, hseg⟩ := ih _ _ hm
    refine ⟨h2, hmem, sameSeg_trans hseg ?_⟩
    split
    · exact ⟨rfl, rfl, rfl, rfl, rfl, rfl⟩
    · exact ⟨rfl, rfl, rfl, rfl, rfl, rfl⟩

/-- The parts of the store the preparation loop never writes (it interns
only into `language` and `topic`). -/
def dbCore (db : DB) :
    List RepoRow × List FetchRunRow × List LatestRow × List HistRow × List (Int × Nat) :=
  (db.repo, db.fetch_run, db.repo_latest, db.repo_metrics_hist, db.repo_topic_latest)

theorem lang_dbCore (db : DB) (nm : Option String) :
    dbCore (get_or_create_language_id db nm).1 = dbCore db := by
  unfold get_or_create_language_id
  cases nm with
  | none => rfl
  | some s =>
    by_cases hs : s = ""
    · simp [hs]
    · simp only [if_neg hs]
      cases db.language.find? (fun p => p.2 = s) with
      | some p => rfl
      | none => rfl

theorem topic_dbCore (db : DB) (nm : String) :
    dbCore (get_or_create_topic_id db nm).1 = dbCore db := by
  unfold get_or_create_topic_id
  cases db.topic.find? (fun p => p.2 = nm) with
  | some p => rfl
  | none => rfl

theorem topics_fold_dbCore (pid : Int) :
    ∀ (l : List String) (db : DB) (tp : List (Int × Nat)),
      dbCore (l.foldl (fun st nm =>
          ((get_or_create_topic_id st.1 nm).1,
           st.2 ++ [(pid, (get_or_create_topic_id st.1 nm).2)])) (db, tp)).1
        = dbCore db := by
  intro l
  induction l with
  | nil => intro db tp; rfl
  | cons nm ns ih =>
    intro db tp
    rw [List.foldl_cons]
    exact (ih _ _).trans (topic_dbCore db nm)

theorem build_step_dbCore (rid : Nat) (ex : List LatestRow) (acc : BuildAcc) (n : Node) :
    dbCore (build_node_step rid ex acc n).db = dbCore acc.db := by
  unfold build_node_step
  exact (topics_fold_dbCore (n.databaseId.getD 0) n.topics
    (get_or_create_language_id acc.db n.primaryLanguage).1 []).trans
    (lang_dbCore acc.db n.primaryLanguage)

theorem build_fold_dbCore (rid : Nat) (ex : List LatestRow) :
    ∀ (ns : List Node) (acc : BuildAcc),
      dbCore ((ns.foldl (build_node_step rid ex) acc).db) = dbCore acc.db := by
  intro ns
  induction ns with
  | nil => intro acc; rfl
  | cons n rest ih =>
    intro acc
    rw [List.foldl_cons]
    exact (ih _).trans (build_step_dbCore rid ex acc n)

/-- Invariant of the preparation loop: every prepared `repo_latest` row
either has its freshly opened segment among the rows to insert (with
`historyStartRunId = runId`), or reuses the start and quadruple of a
row of the prefetched `repo_latest` snapshot. -/
def build_inv (rid : Nat) (ex : List LatestRow) (acc : BuildAcc) : Prop :=
  ∀ row ∈ acc.latest_rows,
    ((⟨row.repo_id, rid, rid, row.stars, row.forks, row.watchers, row.disk_usage⟩ : HistRow)
        ∈ acc.hist_insert_rows ∧ row.history_start_run_id = rid)
    ∨ ∃ old ∈ ex, old.repo_id = row.repo_id
        ∧ row.history_start_run_id = old.history_start_run_id
        ∧ row.stars = old.stars ∧ row.forks = old.forks ∧ row.watchers = old.watchers
        ∧ row.disk_usage = old.disk_usage

theorem build_step_inv (rid : Nat) (ex : List LatestRow) (acc : BuildAcc) (n : Node)
    (hinv : build_inv rid ex acc) : build_inv rid ex (build_node_step rid ex acc n) := by
  cases hfind : ex.find? (fun rl => rl.repo_id = n.databaseId.getD 0) with
  | none =>
    intro row hrow
    simp only [build_node_step, hfind] at hrow ⊢
    rcases List.mem_append.mp hrow with hold | hnew
    · rcases hinv row hold with ⟨hmem, hsr⟩ | hex
      · exact Or.inl ⟨List.mem_append_left _ hmem, hsr⟩
      · exact Or.inr hex
    · rw [List.mem_singleton] at hnew
      subst hnew
      exact Or.inl ⟨List.mem_append_right _ (List.mem_singleton.mpr rfl), rfl⟩
  | some old =>
    by_cases hch : (old.stars != n.stargazerCount.getD 0 || old.forks != n.forkCount.getD 0
        || old.watchers != n.watchers.getD 0 || old.disk_usage != n.diskUsage) = true
    · intro row hrow
      simp only [build_node_step, hfind, hch, if_true] at hrow ⊢
      rcases List.mem_append.mp hrow with hold | hnew
      · rcases hinv row hold with ⟨hmem, hsr⟩ | hex
        · exact Or.inl ⟨List.mem_append_left _ hmem, hsr⟩
        · exact Or.inr hex
      · rw [List.mem_singleton] at hnew
        subst hnew
        exact Or.inl ⟨List.mem_append_right _ (List.mem_singleton.mpr rfl), rfl⟩
    · intro row hrow
      have hch' : (old.stars != n.stargazerCount.getD 0 || old.forks != n.forkCount.getD 0
          || old.watchers != n.watchers.getD 0 || old.disk_usage != n.diskUsage) = false :=
        Bool.eq_false_iff.mpr hch
      simp only [build_node_step, hfind, hch', Bool.false_eq_true, if_false] at hrow ⊢
      rcases List.mem_append.mp hrow with hold | hnew
      · exact hinv row hold
      · rw [List.mem_singleton] at hnew
        subst hnew
        have heqs := hch'
        simp only [Bool.or_eq_false_iff, bne_eq_false_iff_eq] at heqs
        refine Or.inr ⟨old, List.mem_of_find?_eq_some hfind, ?_, rfl, ?_, ?_, ?_, ?_⟩
        · simpa using List.find?_some hfind
        · exact heqs.1.1.1.symm
        · exact heqs.1.1.2.symm
        · exact heqs.1.2.symm
        · exact heqs.2.symm

theorem build_fold_inv (rid : Nat) (ex : List LatestRow) :
    ∀ (ns : List Node) (acc : BuildAcc), build_inv rid ex acc →
      build_inv rid ex (ns.foldl (build_node_step rid ex) acc) := by
  intro ns
  induction ns with
  | nil => intro acc h; exact h
  | cons n rest ih =>
    intro acc h
    rw [List.foldl_cons]
    exact ih _ (build_step_inv rid ex acc n h)

theorem ingest_fresh_preserves_inv (db0 : DB) (rid : Nat) (fresh : List Node) (db2 : DB)
    (hinv0 : latest_hist_inv db0)
    (h : ingest_fresh db0 rid fresh = Except.ok db2) :
    latest_hist_inv db2 := by
  simp only [ingest_fresh] at h
  split at h
  · cases h
    exact hinv0
  · split at h
    · simp at h
    · next repo_rows hmap =>
      split at h
      · simp at h
      · next repos2 hup =>
        split at h
        · simp at h
        · next hist2 hins =>
          cases h
          set pairs := repo_rows.map (fun r => (r.name_with_owner, r.id)) with hpairs
          set latest1 := delete_latest_conflicts db0.repo pairs db0.repo_latest with hlat1
          set rtl1 := delete_topic_conflicts db0.repo pairs db0.repo_topic_latest with hrtl1
          set db1 : DB :=
            { db0 with repo := repos2, repo_latest := latest1, repo_topic_latest := rtl1 }
            with hdb1
          set acc := fresh.foldl (build_node_step rid latest1) ⟨db1, [], [], [], [], []⟩
            with hacc
          have hcore := build_fold_dbCore rid latest1 fresh ⟨db1, [], [], [], [], []⟩
          rw [← hacc] at hcore
          have hlatestA : acc.db.repo_latest = latest1 :=
            congrArg (fun t => t.2.2.1) hcore
          have hhistA : acc.db.repo_metrics_hist = db0.repo_metrics_hist :=
            congrArg (fun t => t.2.2.2.1) hcore
          have hhist2 : hist2 = db0.repo_metrics_hist ++ acc.hist_insert_rows := by
            have hx := insert_hist_rows_ok acc.hist_insert_rows acc.db.repo_metrics_hist hist2 hins
            rw [hhistA] at hx
            exact hx
          have hbinv := build_fold_inv rid latest1 fresh ⟨db1, [], [], [], [], []⟩
            (fun row hrow => absurd hrow (List.not_mem_nil row))
          rw [← hacc] at hbinv
          intro rl hrl
          rcases apply_latest_upserts_mem acc.latest_rows acc.db.repo_latest rl hrl
            with hold | hnew
          · have hold1 : rl ∈ latest1 := hlatestA ▸ hold
            rw [hlat1] at hold1
            have hrl0 : rl ∈ db0.repo_latest := delete_latest_conflicts_subset hold1
            obtain ⟨h0, h0mem, h0m⟩ := hinv0 rl hrl0
            have hmem2 : h0 ∈ hist2 := by
              rw [hhist2]
              exact List.mem_append_left _ h0mem
            obtain ⟨h2, h2mem, h2seg⟩ :=
              apply_hist_extends_preserves acc.hist_extend_rows hist2 h0 hmem2
            exact ⟨h2, h2mem, sameSeg_matches h2seg h0m⟩
          · rcases hbinv rl hnew with ⟨hmemins, hsr⟩ |
              ⟨old, holdmem, hoid, hosr, host, hof, how, hod⟩
            · have hmem2 : (⟨rl.repo_id, rid, rid, rl.stars, rl.forks, rl.watchers,
                  rl.disk_usage⟩ : HistRow) ∈ hist2 := by
                rw [hhist2]
                exact List.mem_append_right _ hmemins
              obtain ⟨h2, h2mem, h2seg⟩ :=
                apply_hist_extends_preserves acc.hist_extend_rows hist2 _ hmem2
              exact ⟨h2, h2mem, sameSeg_matches h2seg ⟨rfl, hsr.symm, rfl, rfl, rfl, rfl⟩⟩
            · rw [hlat1] at holdmem
              have hold0 : old ∈ db0.repo_latest := delete_latest_conflicts_subset holdmem
              obtain ⟨h0, h0mem, h0m⟩ := hinv0 old hold0
              have hmem2 : h0 ∈ hist2 := by
                rw [hhist2]
                exact List.mem_append_left _ h0mem
              obtain ⟨h2, h2mem, h2seg⟩ :=
                apply_hist_extends_preserves acc.hist_extend_rows hist2 h0 hmem2
              refine ⟨h2, h2mem, sameSeg_matches h2seg ?_⟩
              exact ⟨h0m.1.trans hoid, h0m.2.1.trans hosr.symm, h0m.2.2.1.trans host.symm,
                h0m.2.2.2.1.trans hof.symm, h0m.2.2.2.2.1.trans how.symm,
                h0m.2.2.2.2.2.trans hod.symm⟩

/-- Claim C7: after every completed ingest call, every RepoLatest row
has a RepoMetricsHist row with `startRunId = historyStartRunId` whose
metric quadruple equals the RepoLatest quadruple; the invariant is
preserved by every ingestion operation. -/
theorem c7_latest_consistency_preserved (s : EngineState) (fetched_at : Int)
    (nodes : List Node) (s2 : EngineState)
    (hinv : latest_hist_inv s.db)
    (hok : upsert_from_github_nodes s fetched_at nodes = Except.ok s2) :
    latest_hist_inv s2.db := by
  simp only [upsert_from_github_nodes] at hok
  cases hing : ingest_fresh (begin_run s.db s.run_id fetched_at).1
      (begin_run s.db s.run_id fetched_at).2
      (fresh_filter s.processed_repo_ids nodes).2 with
  | error e =>
    rw [hing] at hok
    simp at hok
  | ok db2 =>
    rw [hing] at hok
    have hs2 : s2.db = db2 := by
      cases hok
      rfl
    rw [hs2]
    have hinv0 : latest_hist_inv (begin_run s.db s.run_id fetched_at).1 := by
      have h1 : (begin_run s.db s.run_id fetched_at).1.repo_latest = s.db.repo_latest := by
        unfold begin_run
        cases s.run_id with
        | none => rfl
        | some r => rfl
      have h2 : (begin_run s.db s.run_id fetched_at).1.repo_metrics_hist
          = s.db.repo_metrics_hist := by
        unfold begin_run
        cases s.run_id with
        | none => rfl
        | some r => rfl
      unfold latest_hist_inv at hinv ⊢
      rw [h1, h2]
      exact hinv
    exact ingest_fresh_preserves_inv _ _ _ db2 hinv0 hing

theorem build_step_unchanged (rid : Nat) (ex : List LatestRow) (acc : BuildAcc) (n : Node)
    (old : LatestRow)
    (hfind : ex.find? (fun rl => rl.repo_id = n.databaseId.getD 0) = some old)
    (hch : (old.stars != n.stargazerCount.getD 0 || old.forks != n.forkCount.getD 0
        || old.watchers != n.watchers.getD 0 || old.disk_usage != n.diskUsage) = false) :
    (build_node_step rid ex acc n).hist_insert_rows = acc.hist_insert_rows
    ∧ (build_node_step rid ex acc n).hist_extend_rows
        = acc.hist_extend_rows ++ [(rid, n.databaseId.getD 0, old.history_start_run_id)]
    ∧ (build_node_step rid ex acc n).latest_rows = acc.latest_rows ++
        [⟨n.databaseId.getD 0, rid, old.history_start_run_id, n.stargazerCount.getD 0,
          n.forkCount.getD 0, n.watchers.getD 0, n.diskUsage, n.updatedAt, n.pushedAt,
          n.isArchived, (get_or_create_language_id acc.db n.primaryLanguage).2⟩] := by
  refine ⟨?_, ?_, ?_⟩ <;>
    simp [build_node_step, hfind, hch]

theorem build_step_nolatest (rid : Nat) (ex : List LatestRow) (acc : BuildAcc) (n : Node)
    (hfind : ex.find? (fun rl => rl.repo_id = n.databaseId.getD 0) = none) :
    (build_node_step rid ex acc n).hist_insert_rows = acc.hist_insert_rows ++
        [⟨n.databaseId.getD 0, rid, rid, n.stargazerCount.getD 0, n.forkCount.getD 0,
          n.watchers.getD 0, n.diskUsage⟩]
    ∧ (build_node_step rid ex acc n).hist_extend_rows = acc.hist_extend_rows
    ∧ (build_node_step rid ex acc n).latest_rows = acc.latest_rows ++
        [⟨n.databaseId.getD 0, rid, rid, n.stargazerCount.getD 0,
          n.forkCount.getD 0, n.watchers.getD 0, n.diskUsage, n.updatedAt, n.pushedAt,
          n.isArchived, (get_or_create_language_id acc.db n.primaryLanguage).2⟩] := by
  refine ⟨?_, ?_, ?_⟩ <;>
    simp [build_node_step, hfind]

theorem build_step_changed (rid : Nat) (ex : List LatestRow) (acc : BuildAcc) (n : Node)
    (old : LatestRow)
    (hfind : ex.find? (fun rl => rl.repo_id = n.databaseId.getD 0) = some old)
    (hch : (old.stars != n.stargazerCount.getD 0 || old.forks != n.forkCount.getD 0
        || old.watchers != n.watchers.getD 0 || old.disk_usage != n.diskUsage) = true) :
    (build_node_step rid ex acc n).hist_insert_rows = acc.hist_insert_rows ++
        [⟨n.databaseId.getD 0, rid, rid, n.stargazerCount.getD 0, n.forkCount.getD 0,
          n.watchers.getD 0, n.diskUsage⟩]
    ∧ (build_node_step rid ex acc n).hist_extend_rows = acc.hist_extend_rows
    ∧ (build_node_step rid ex acc n).latest_rows = acc.latest_rows ++
        [⟨n.databaseId.getD 0, rid, rid, n.stargazerCount.getD 0,
          n.forkCount.getD 0, n.watchers.getD 0, n.diskUsage, n.updatedAt, n.pushedAt,
          n.isArchived, (get_or_create_language_id acc.db n.primaryLanguage).2⟩] := by
  refine ⟨?_, ?_, ?_⟩ <;>
    simp [build_node_step, hfind, hch]

theorem apply_hist_extends_nil (hist : List HistRow) : apply_hist_extends hist [] = hist := rfl

theorem apply_hist_extends_single (hist : List HistRow) (e : Nat × Int × Nat) :
    apply_hist_extends hist [e] = hist.map (fun h =>
      if h.repo_id = e.2.1 && h.start_run_id = e.2.2 then { h with end_run_id := e.1 }
      else h) := rfl

theorem insert_hist_rows_single (hist : List HistRow) (row : HistRow)
    (hfree : ∀ h2 ∈ hist, ¬(h2.repo_id = row.repo_id ∧ h2.start_run_id = row.start_run_id)) :
    insert_hist_rows hist [row] = Except.ok (hist ++ [row]) := by
  have hcond : hist.any
      (fun h2 => h2.repo_id = row.repo_id && h2.start_run_id = row.start_run_id) = false := by
    cases hA : hist.any
        (fun h2 => h2.repo_id = row.repo_id && h2.start_run_id = row.start_run_id) with
    | false => rfl
    | true =>
      exfalso
      rcases List.any_eq_true.mp hA with ⟨h2, hh2, hc⟩
      simp only [Bool.and_eq_true, decide_eq_true_eq] at hc
      exact hfree h2 hh2 hc
  unfold insert_hist_rows
  rw [hcond]
  simp [insert_hist_rows]

/-- After the extension, the unique history row of the repo with the
matched start is the unique row covering both the previous and the
current run. -/
theorem covering_filter_unique (hist : List HistRow) (i : Int) (hsr oldrun rid : Nat)
    (h0 : HistRow)
    (hone : hist.filter (fun h => h.repo_id = i && h.start_run_id = hsr) = [h0])
    (hend : ∀ h ∈ hist, h.repo_id = i → h.end_run_id ≤ oldrun)
    (hstart : h0.start_run_id ≤ oldrun) (hlt : oldrun < rid) :
    (hist.map (fun h => if h.repo_id = i && h.start_run_id = hsr
        then { h with end_run_id := rid } else h)).filter
      (fun h => h.repo_id = i && h.start_run_id ≤ oldrun && rid ≤ h.end_run_id)
      = [{ h0 with end_run_id := rid }] := by
  have hp0 : h0.repo_id = i ∧ h0.start_run_id = hsr := by
    have hmem : h0 ∈ hist.filter (fun h => h.repo_id = i && h.start_run_id = hsr) := by
      rw [hone]
      exact List.mem_singleton.mpr rfl
    have hcond := (List.mem_filter.mp hmem).2
    simpa using hcond
  rw [List.map_filter]
  have hcong : hist.filter
      ((fun h => h.repo_id = i && h.start_run_id ≤ oldrun && rid ≤ h.end_run_id) ∘
        (fun h => if h.repo_id = i && h.start_run_id = hsr
          then { h with end_run_id := rid } else h))
      = hist.filter (fun h => h.repo_id = i && h.start_run_id = hsr) := by
    apply List.filter_congr
    intro h hh
    by_cases hm : (h.repo_id = i && h.start_run_id = hsr) = true
    · have hmm : h.repo_id = i ∧ h.start_run_id = hsr := by simpa using hm
      have hsle : h.start_run_id ≤ oldrun := by
        rw [hmm.2, ← hp0.2]
        exact hstart
      have hsrle : hsr ≤ oldrun := by
        rw [← hp0.2]
        exact hstart
      simp [Function.comp, hmm.1, hmm.2, hsle, hsrle]
    · have hm' : (h.repo_id = i && h.start_run_id = hsr) = false := Bool.eq_false_iff.mpr hm
      simp only [Function.comp_apply, hm', Bool.false_eq_true, if_false]
      by_cases hri : h.repo_id = i
      · have hle2 : h.end_run_id ≤ oldrun := hend h hh hri
        have : ¬ rid ≤ h.end_run_id := by omega
        simp [hri, this, hm']
      · simp [hri, hm']
  rw [hcong, hone]
  have hmatch : (h0.repo_id = i && h0.start_run_id = hsr) = true := by
    simp [hp0.1, hp0.2]
  simp only [List.map_cons, List.map_nil]
  rw [if_pos hmatch]

/-- Membership in a one-row latest upsert: any surviving row carrying the
upserted repo id is the upserted row itself, in both the UPDATE and the
INSERT branch. -/
theorem apply_latest_upserts_single {latest : List LatestRow} {row rl : LatestRow}
    (hmem : rl ∈ apply_latest_upserts latest [row]) (hid : rl.repo_id = row.repo_id) :
    rl = row := by
  unfold apply_latest_upserts at hmem
  simp only [List.foldl_cons, List.foldl_nil] at hmem
  split at hmem
  · obtain ⟨x, hx, hxe⟩ := List.mem_map.mp hmem
    split at hxe
    · exact hxe.symm
    · next hc =>
      rw [← hxe] at hid
      exact absurd hid hc
  · next hany =>
    rcases List.mem_append.mp hmem with hl | hr
    · exfalso
      exact hany (List.any_eq_true.mpr ⟨rl, hl, by simp [hid]⟩)
    · simpa using hr

/-- Claim C6: the change diff of ingestion. For a single-snapshot batch
for repo `i` named `nm` in a pass with current run `rid`, colliding
with no other repo and with no history row of the repo already keyed at
`rid`: if the existing RepoLatest quadruple equals the snapshot
quadruple (NULL disk usages equal), no RepoMetricsHist row is inserted
and the row with `startRunId = historyStartRunId` gets its `endRunId`
set to `rid` — the unique segment then covering the previous and the
current run; if there is no RepoLatest row or the quadruple differs, a
fresh row `[rid, rid]` with the new quadruple is appended and
`historyStartRunId` becomes `rid`. -/
theorem c6_change_extension (db : DB) (rid : Nat) (processed : List Int)
    (fetched_at : Int) (n : Node) (i : Int) (nm : String)
    (hid : n.databaseId = some i) (hpos : 0 < i) (hnew : i ∉ processed)
    (hname : n.nameWithOwner = some nm)
    (hnoconf : ∀ r ∈ db.repo, r.name_with_owner = nm → r.id = i)
    (hfreshrun : ∀ h ∈ db.repo_metrics_hist, h.repo_id = i → h.start_run_id ≠ rid) :
    ∃ s2, upsert_from_github_nodes ⟨db, some rid, processed⟩ fetched_at [n] = Except.ok s2
      ∧ (∀ old, db.repo_latest.find? (fun rl => rl.repo_id = i) = some old →
          old.stars = n.stargazerCount.getD 0 → old.forks = n.forkCount.getD 0 →
          old.watchers = n.watchers.getD 0 → old.disk_usage = n.diskUsage →
          s2.db.repo_metrics_hist = db.repo_metrics_hist.map
              (fun h => if h.repo_id = i && h.start_run_id = old.history_start_run_id
                then { h with end_run_id := rid } else h)
            ∧ (∀ rl2 ∈ s2.db.repo_latest, rl2.repo_id = i →
                rl2.history_start_run_id = old.history_start_run_id ∧ rl2.run_id = rid)
            ∧ (∀ h0, db.repo_metrics_hist.filter
                  (fun h => h.repo_id = i && h.start_run_id = old.history_start_run_id)
                  = [h0] →
                (∀ h ∈ db.repo_metrics_hist, h.repo_id = i → h.end_run_id ≤ old.run_id) →
                h0.start_run_id ≤ old.run_id → old.run_id < rid →
                s2.db.repo_metrics_hist.filter
                    (fun h => h.repo_id = i && h.start_run_id ≤ old.run_id
                      && rid ≤ h.end_run_id)
                  = [{ h0 with end_run_id := rid }]))
      ∧ ((∀ old, db.repo_latest.find? (fun rl => rl.repo_id = i) = some old →
            ¬(old.stars = n.stargazerCount.getD 0 ∧ old.forks = n.forkCount.getD 0 ∧
              old.watchers = n.watchers.getD 0 ∧ old.disk_usage = n.diskUsage)) →
          s2.db.repo_metrics_hist = db.repo_metrics_hist ++
              [⟨i, rid, rid, n.stargazerCount.getD 0, n.forkCount.getD 0,
                n.watchers.getD 0, n.diskUsage⟩]
            ∧ (∀ rl2 ∈ s2.db.repo_latest, rl2.repo_id = i →
                rl2.history_start_run_id = rid ∧ rl2.run_id = rid)) := by
  have hgd : n.databaseId.getD 0 = i := by rw [hid]; rfl
  have hle : ¬ i ≤ 0 := not_le.mpr hpos
  have hff : fresh_filter processed [n] = (i :: processed, [n]) := by
    simp [fresh_filter, hid, hle, hnew]
  have hrows : map_repo_rows [n]
      = Except.ok [⟨i, nm, n.description, n.homepageUrl, n.createdAt⟩] := by
    simp [map_repo_rows, node_repo_row, hname, hgd]
  have hfilnil : db.repo.filter (fun r => r.name_with_owner = nm && r.id != i) = [] := by
    rw [List.filter_eq_nil_iff]
    intro r hr
    simp only [Bool.and_eq_true, decide_eq_true_eq, bne_iff_ne, ne_eq, not_and]
    intro h1 h2
    exact h2 (hnoconf r hr h1)
  have hcids : conflict_ids db.repo nm i = [] := by
    unfold conflict_ids
    rw [hfilnil]
    rfl
  have hlat1 : delete_latest_conflicts db.repo [(nm, i)] db.repo_latest
      = db.repo_latest := by
    unfold delete_latest_conflicts conflict_delete
    simp [hcids]
  have hrtl1 : delete_topic_conflicts db.repo [(nm, i)] db.repo_topic_latest
      = db.repo_topic_latest := by
    unfold delete_topic_conflicts conflict_delete
    simp [hcids]
  have hren : rename_conflicts db.repo [(nm, i)] = db.repo := by
    unfold rename_conflicts
    simp only [List.foldl_cons, List.foldl_nil]
    have hpt : ∀ r ∈ db.repo,
        (if r.name_with_owner = nm && r.id != i
          then { r with name_with_owner := r.name_with_owner ++ "-renamed-" ++ toString r.id }
          else r) = r := by
      intro r hr
      have hcond : (r.name_with_owner = nm && r.id != i) = false := by
        by_cases h1 : r.name_with_owner = nm
        · simp [h1, hnoconf r hr h1]
        · simp [h1]
      rw [hcond]
      simp
    rw [List.map_congr_left hpt]
    simp
  obtain ⟨repos2, hup2⟩ : ∃ repos2,
      upsert_repo_row db.repo ⟨i, nm, n.description, n.homepageUrl, n.createdAt⟩
        = Except.ok repos2 := by
    unfold upsert_repo_row
    split
    · next hcond =>
      exfalso
      simp only [List.any_eq_true, Bool.and_eq_true, bne_iff_ne, ne_eq,
        decide_eq_true_eq] at hcond
      obtain ⟨r, hr, hne, hnm⟩ := hcond
      exact hne (hnoconf r hr hnm)
    · split
      · exact ⟨_, rfl⟩
      · exact ⟨_, rfl⟩
  have hups : upsert_repo_rows db.repo [⟨i, nm, n.description, n.homepageUrl, n.createdAt⟩]
      = Except.ok repos2 := by
    simp [upsert_repo_rows, hup2]
  cases hfind : db.repo_latest.find? (fun rl => rl.repo_id = i) with
  | some old =>
    have hfind' : db.repo_latest.find? (fun rl => rl.repo_id = n.databaseId.getD 0)
        = some old := by
      rw [hgd]
      exact hfind
    by_cases hq : old.stars = n.stargazerCount.getD 0 ∧ old.forks = n.forkCount.getD 0
        ∧ old.watchers = n.watchers.getD 0 ∧ old.disk_usage = n.diskUsage
    · -- unchanged: extend the open segment
      have hch : (old.stars != n.stargazerCount.getD 0 || old.forks != n.forkCount.getD 0
          || old.watchers != n.watchers.getD 0 || old.disk_usage != n.diskUsage) = false := by
        simp [hq.1, hq.2.1, hq.2.2.1, hq.2.2.2]
      have hstep := build_step_unchanged rid db.repo_latest
        ⟨{ db with repo := repos2 }, [], [], [], [], []⟩ n old hfind' hch
      have hcore := build_step_dbCore rid db.repo_latest
        ⟨{ db with repo := repos2 }, [], [], [], [], []⟩ n
      have hXcore : (build_node_step rid db.repo_latest
          ⟨{ db with repo := repos2 }, [], [], [], [], []⟩ n).db.repo_metrics_hist
          = db.repo_metrics_hist := congrArg (fun t => t.2.2.2.1) hcore
      have hLcore : (build_node_step rid db.repo_latest
          ⟨{ db with repo := repos2 }, [], [], [], [], []⟩ n).db.repo_latest
          = db.repo_latest := congrArg (fun t => t.2.2.1) hcore
      have hinsfact : insert_hist_rows (build_node_step rid db.repo_latest
          ⟨{ db with repo := repos2 }, [], [], [], [], []⟩ n).db.repo_metrics_hist
          (build_node_step rid db.repo_latest
          ⟨{ db with repo := repos2 }, [], [], [], [], []⟩ n).hist_insert_rows
          = Except.ok (build_node_step rid db.repo_latest
          ⟨{ db with repo := repos2 }, [], [], [], [], []⟩ n).db.repo_metrics_hist := by
        rw [hstep.1]
        rfl
      have hok : upsert_from_github_nodes ⟨db, some rid, processed⟩ fetched_at [n]
          = Except.ok ⟨{ (build_node_step rid db.repo_latest
              ⟨{ db with repo := repos2 }, [], [], [], [], []⟩ n).db with
              repo_latest := apply_latest_upserts
                (build_node_step rid db.repo_latest
                  ⟨{ db with repo := repos2 }, [], [], [], [], []⟩ n).db.repo_latest
                (build_node_step rid db.repo_latest
                  ⟨{ db with repo := repos2 }, [], [], [], [], []⟩ n).latest_rows,
              repo_metrics_hist := apply_hist_extends
                (build_node_step rid db.repo_latest
                  ⟨{ db with repo := repos2 }, [], [], [], [], []⟩ n).db.repo_metrics_hist
                (build_node_step rid db.repo_latest
                  ⟨{ db with repo := repos2 }, [], [], [], [], []⟩ n).hist_extend_rows,
              repo_topic_latest := insert_topic_pairs
                ((build_node_step rid db.repo_latest
                  ⟨{ db with repo := repos2 }, [], [], [], [], []⟩ n).db.repo_topic_latest.filter
                  (fun p => !((build_node_step rid db.repo_latest
                    ⟨{ db with repo := repos2 }, [], [], [], [], []⟩ n).topic_repo_ids.contains p.1)))
                (build_node_step rid db.repo_latest
                  ⟨{ db with repo := repos2 }, [], [], [], [], []⟩ n).topic_pairs },
            some rid, i :: processed⟩ := by
        simp only [upsert_from_github_nodes, begin_run, hff, ingest_fresh, List.isEmpty_cons,
          Bool.false_eq_true, if_false, hrows, List.map_cons, List.map_nil, hlat1, hrtl1,
          hren, hups, List.foldl_cons, List.foldl_nil, hinsfact]
      refine ⟨_, hok, ?_, ?_⟩
      · intro old2 hfind2 _ _ _ _
        have hold2 : old2 = old := by
          exact (Option.some_inj.mp hfind2).symm
        subst hold2
        have hA1 : apply_hist_extends
            (build_node_step rid db.repo_latest
              ⟨{ db with repo := repos2 }, [], [], [], [], []⟩ n).db.repo_metrics_hist
            (build_node_step rid db.repo_latest
              ⟨{ db with repo := repos2 }, [], [], [], [], []⟩ n).hist_extend_rows
            = db.repo_metrics_hist.map
              (fun h => if h.repo_id = i && h.start_run_id = old2.history_start_run_id
                then { h with end_run_id := rid } else h) := by
          rw [hstep.2.1, hXcore]
          show apply_hist_extends db.repo_metrics_hist
            [(rid, n.databaseId.getD 0, old2.history_start_run_id)] = _
          rw [apply_hist_extends_single]
          simp [hgd]
        refine ⟨hA1, ?_, ?_⟩
        · intro rl2 hrl2 hrli
          have hrl2' : rl2 ∈ apply_latest_upserts
              (build_node_step rid db.repo_latest
                ⟨{ db with repo := repos2 }, [], [], [], [], []⟩ n).db.repo_latest
              (build_node_step rid db.repo_latest
                ⟨{ db with repo := repos2 }, [], [], [], [], []⟩ n).latest_rows := hrl2
          rw [hLcore, hstep.2.2] at hrl2'
          have hrl2'' : rl2 ∈ apply_latest_upserts db.repo_latest
              [⟨n.databaseId.getD 0, rid, old2.history_start_run_id, n.stargazerCount.getD 0,
                n.forkCount.getD 0, n.watchers.getD 0, n.diskUsage, n.updatedAt, n.pushedAt,
                n.isArchived, (get_or_create_language_id
                  { db with repo := repos2 } n.primaryLanguage).2⟩] := hrl2'
          have heq := apply_latest_upserts_single hrl2'' (by rw [hrli]; exact hgd.symm)
          rw [heq]
          exact ⟨rfl, rfl⟩
        · intro h0 hone hend hstart hlt
          have hgoal : (apply_hist_extends
              (build_node_step rid db.repo_latest
                ⟨{ db with repo := repos2 }, [], [], [], [], []⟩ n).db.repo_metrics_hist
              (build_node_step rid db.repo_latest
                ⟨{ db with repo := repos2 }, [], [], [], [], []⟩ n).hist_extend_rows).filter
              (fun h => h.repo_id = i && h.start_run_id ≤ old2.run_id && rid ≤ h.end_run_id)
              = [{ h0 with end_run_id := rid }] := by
            rw [hA1]
            exact covering_filter_unique db.repo_metrics_hist i old2.history_start_run_id
              old2.run_id rid h0 hone hend hstart hlt
          exact hgoal
      · intro hB
        exact absurd hq (hB old rfl)
    · -- changed: open a new segment
      have hch : (old.stars != n.stargazerCount.getD 0 || old.forks != n.forkCount.getD 0
          || old.watchers != n.watchers.getD 0 || old.disk_usage != n.diskUsage) = true := by
        by_contra hc
        have hcf : (old.stars != n.stargazerCount.getD 0 || old.forks != n.forkCount.getD 0
            || old.watchers != n.watchers.getD 0 || old.disk_usage != n.diskUsage) = false :=
          Bool.eq_false_iff.mpr hc
        simp only [Bool.or_eq_false_iff, bne_eq_false_iff_eq] at hcf
        exact hq ⟨hcf.1.1.1, hcf.1.1.2, hcf.1.2, hcf.2⟩
      have hstep := build_step_changed rid db.repo_latest
        ⟨{ db with repo := repos2 }, [], [], [], [], []⟩ n old hfind' hch
      have hcore := build_step_dbCore rid db.repo_latest
        ⟨{ db with repo := repos2 }, [], [], [], [], []⟩ n
      have hXcore : (build_node_step rid db.repo_latest
          ⟨{ db with repo := repos2 }, [], [], [], [], []⟩ n).db.repo_metrics_hist
          = db.repo_metrics_hist := congrArg (fun t => t.2.2.2.1) hcore
      have hLcore : (build_node_step rid db.repo_latest
          ⟨{ db with repo := repos2 }, [], [], [], [], []⟩ n).db.repo_latest
          = db.repo_latest := congrArg (fun t => t.2.2.1) hcore
      have hinsfact : insert_hist_rows (build_node_step rid db.repo_latest
          ⟨{ db with repo := repos2 }, [], [], [], [], []⟩ n).db.repo_metrics_hist
          (build_node_step rid db.repo_latest
          ⟨{ db with repo := repos2 }, [], [], [], [], []⟩ n).hist_insert_rows
          = Except.ok (db.repo_metrics_hist ++
            [⟨i, rid, rid, n.stargazerCount.getD 0, n.forkCount.getD 0,
              n.watchers.getD 0, n.diskUsage⟩]) := by
        rw [hstep.1, hXcore]
        have hfree : ∀ h2 ∈ db.repo_metrics_hist,
            ¬(h2.repo_id = (⟨n.databaseId.getD 0, rid, rid, n.stargazerCount.getD 0,
              n.forkCount.getD 0, n.watchers.getD 0, n.diskUsage⟩ : HistRow).repo_id ∧
              h2.start_run_id = (⟨n.databaseId.getD 0, rid, rid, n.stargazerCount.getD 0,
                n.forkCount.getD 0, n.watchers.getD 0, n.diskUsage⟩ : HistRow).start_run_id) := by
          intro h2 hh2 hcon
          exact hfreshrun h2 hh2 (hcon.1.trans hgd) hcon.2
        have hres := insert_hist_rows_single db.repo_metrics_hist
          ⟨n.databaseId.getD 0, rid, rid, n.stargazerCount.getD 0, n.forkCount.getD 0,
            n.watchers.getD 0, n.diskUsage⟩ hfree
        rw [show ((⟨{ db with repo := repos2 }, [], [], [], [], []⟩ : BuildAcc).hist_insert_rows ++
            [⟨n.databaseId.getD 0, rid, rid, n.stargazerCount.getD 0, n.forkCount.getD 0,
              n.watchers.getD 0, n.diskUsage⟩]) = [(⟨n.databaseId.getD 0, rid, rid,
              n.stargazerCount.getD 0, n.forkCount.getD 0, n.watchers.getD 0,
              n.diskUsage⟩ : HistRow)] from rfl]
        rw [hres, hgd]
      have hok : upsert_from_github_nodes ⟨db, some rid, processed⟩ fetched_at [n]
          = Except.ok ⟨{ (build_node_step rid db.repo_latest
              ⟨{ db with repo := repos2 }, [], [], [], [], []⟩ n).db with
              repo_latest := apply_latest_upserts
                (build_node_step rid db.repo_latest
                  ⟨{ db with repo := repos2 }, [], [], [], [], []⟩ n).db.repo_latest
                (build_node_step rid db.repo_latest
                  ⟨{ db with repo := repos2 }, [], [], [], [], []⟩ n).latest_rows,
              repo_metrics_hist := apply_hist_extends
                (db.repo_metrics_hist ++
                  [⟨i, rid, rid, n.stargazerCount.getD 0, n.forkCount.getD 0,
                    n.watchers.getD 0, n.diskUsage⟩])
                (build_node_step rid db.repo_latest
                  ⟨{ db with repo := repos2 }, [], [], [], [], []⟩ n).hist_extend_rows,
              repo_topic_latest := insert_topic_pairs
                ((build_node_step rid db.repo_latest
                  ⟨{ db with repo := repos2 }, [], [], [], [], []⟩ n).db.repo_topic_latest.filter
                  (fun p => !((build_node_step rid db.repo_latest
                    ⟨{ db with repo := repos2 }, [], [], [], [], []⟩ n).topic_repo_ids.contains p.1)))
                (build_node_step rid db.repo_latest
                  ⟨{ db with repo := repos2 }, [], [], [], [], []⟩ n).topic_pairs },
            some rid, i :: processed⟩ := by
        simp only [upsert_from_github_nodes, begin_run, hff, ingest_fresh, List.isEmpty_cons,
          Bool.false_eq_true, if_false, hrows, List.map_cons, List.map_nil, hlat1, hrtl1,
          hren, hups, List.foldl_cons, List.foldl_nil, hinsfact]
      refine ⟨_, hok, ?_, ?_⟩
      · intro old2 hfind2 hst hfk hwt hdu
        have hold2 : old2 = old := by
          exact (Option.some_inj.mp hfind2).symm
        subst hold2
        exact absurd ⟨hst, hfk, hwt, hdu⟩ hq
      · intro _
        constructor
        · show apply_hist_extends (db.repo_metrics_hist ++
            [⟨i, rid, rid, n.stargazerCount.getD 0, n.forkCount.getD 0,
              n.watchers.getD 0, n.diskUsage⟩])
            (build_node_step rid db.repo_latest
              ⟨{ db with repo := repos2 }, [], [], [], [], []⟩ n).hist_extend_rows = _
          rw [hstep.2.1]
          rfl
        · intro rl2 hrl2 hrli
          have hrl2' : rl2 ∈ apply_latest_upserts
              (build_node_step rid db.repo_latest
                ⟨{ db with repo := repos2 }, [], [], [], [], []⟩ n).db.repo_latest
              (build_node_step rid db.repo_latest
                ⟨{ db with repo := repos2 }, [], [], [], [], []⟩ n).latest_rows := hrl2
          rw [hLcore, hstep.2.2] at hrl2'
          have hrl2'' : rl2 ∈ apply_latest_upserts db.repo_latest
              [⟨n.databaseId.getD 0, rid, rid, n.stargazerCount.getD 0,
                n.forkCount.getD 0, n.watchers.getD 0, n.diskUsage, n.updatedAt, n.pushedAt,
                n.isArchived, (get_or_create_language_id
                  { db with repo := repos2 } n.primaryLanguage).2⟩] := hrl2'
          have heq := apply_latest_upserts_single hrl2'' (by rw [hrli]; exact hgd.symm)
          rw [heq]
          exact ⟨rfl, rfl⟩
  | none =>
    have hfind' : db.repo_latest.find? (fun rl => rl.repo_id = n.databaseId.getD 0)
        = none := by
      rw [hgd]
      exact hfind
    have hstep := build_step_nolatest rid db.repo_latest
      ⟨{ db with repo := repos2 }, [], [], [], [], []⟩ n hfind'
    have hcore := build_step_dbCore rid db.repo_latest
      ⟨{ db with repo := repos2 }, [], [], [], [], []⟩ n
    have hXcore : (build_node_step rid db.repo_latest
        ⟨{ db with repo := repos2 }, [], [], [], [], []⟩ n).db.repo_metrics_hist
        = db.repo_metrics_hist := congrArg (fun t => t.2.2.2.1) hcore
    have hLcore : (build_node_step rid db.repo_latest
        ⟨{ db with repo := repos2 }, [], [], [], [], []⟩ n).db.repo_latest
        = db.repo_latest := congrArg (fun t => t.2.2.1) hcore
    have hinsfact : insert_hist_rows (build_node_step rid db.repo_latest
        ⟨{ db with repo := repos2 }, [], [], [], [], []⟩ n).db.repo_metrics_hist
        (build_node_step rid db.repo_latest
        ⟨{ db with repo := repos2 }, [], [], [], [], []⟩ n).hist_insert_rows
        = Except.ok (db.repo_metrics_hist ++
          [⟨i, rid, rid, n.stargazerCount.getD 0, n.forkCount.getD 0,
            n.watchers.getD 0, n.diskUsage⟩]) := by
      rw [hstep.1, hXcore]
      have hfree : ∀ h2 ∈ db.repo_metrics_hist,
          ¬(h2.repo_id = (⟨n.databaseId.getD 0, rid, rid, n.stargazerCount.getD 0,
            n.forkCount.getD 0, n.watchers.getD 0, n.diskUsage⟩ : HistRow).repo_id ∧
            h2.start_run_id = (⟨n.databaseId.getD 0, rid, rid, n.stargazerCount.getD 0,
              n.forkCount.getD 0, n.watchers.getD 0, n.diskUsage⟩ : HistRow).start_run_id) := by
        intro h2 hh2 hcon
        exact hfreshrun h2 hh2 (hcon.1.trans hgd) hcon.2
      have hres := insert_hist_rows_single db.repo_metrics_hist
        ⟨n.databaseId.getD 0, rid, rid, n.stargazerCount.getD 0, n.forkCount.getD 0,
          n.watchers.getD 0, n.diskUsage⟩ hfree
      rw [show ((⟨{ db with repo := repos2 }, [], [], [], [], []⟩ : BuildAcc).hist_insert_rows ++
          [⟨n.databaseId.getD 0, rid, rid, n.stargazerCount.getD 0, n.forkCount.getD 0,
            n.watchers.getD 0, n.diskUsage⟩]) = [(⟨n.databaseId.getD 0, rid, rid,
            n.stargazerCount.getD 0, n.forkCount.getD 0, n.watchers.getD 0,
            n.diskUsage⟩ : HistRow)] from rfl]
      rw [hres, hgd]
    have hok : upsert_from_github_nodes ⟨db, some rid, processed⟩ fetched_at [n]
        = Except.ok ⟨{ (build_node_step rid db.repo_latest
            ⟨{ db with repo := repos2 }, [], [], [], [], []⟩ n).db with
            repo_latest := apply_latest_upserts
              (build_node_step rid db.repo_latest
                ⟨{ db with repo := repos2 }, [], [], [], [], []⟩ n).db.repo_latest
              (build_node_step rid db.repo_latest
                ⟨{ db with repo := repos2 }, [], [], [], [], []⟩ n).latest_rows,
            repo_metrics_hist := apply_hist_extends
              (db.repo_metrics_hist ++
                [⟨i, rid, rid, n.stargazerCount.getD 0, n.forkCount.getD 0,
                  n.watchers.getD 0, n.diskUsage⟩])
              (build_node_step rid db.repo_latest
                ⟨{ db with repo := repos2 }, [], [], [], [], []⟩ n).hist_extend_rows,
            repo_topic_latest := insert_topic_pairs
              ((build_node_step rid db.repo_latest
                ⟨{ db with repo := repos2 }, [], [], [], [], []⟩ n).db.repo_topic_latest.filter
                (fun p => !((build_node_step rid db.repo_latest
                  ⟨{ db with repo := repos2 }, [], [], [], [], []⟩ n).topic_repo_ids.contains p.1)))
              (build_node_step rid db.repo_latest
                ⟨{ db with repo := repos2 }, [], [], [], [], []⟩ n).topic_pairs },
          some rid, i :: processed⟩ := by
      simp only [upsert_from_github_nodes, begin_run, hff, ingest_fresh, List.isEmpty_cons,
        Bool.false_eq_true, if_false, hrows, List.map_cons, List.map_nil, hlat1, hrtl1,
        hren, hups, List.foldl_cons, List.foldl_nil, hinsfact]
    refine ⟨_, hok, ?_, ?_⟩
    · intro old2 hfind2 _ _ _ _
      exact absurd hfind2 (by simp)
    · intro _
      constructor
      · show apply_hist_extends (db.repo_metrics_hist ++
          [⟨i, rid, rid, n.stargazerCount.getD 0, n.forkCount.getD 0,
            n.watchers.getD 0, n.diskUsage⟩])
          (build_node_step rid db.repo_latest
            ⟨{ db with repo := repos2 }, [], [], [], [], []⟩ n).hist_extend_rows = _
        rw [hstep.2.1]
        rfl
      · intro rl2 hrl2 hrli
        have hrl2' : rl2 ∈ apply_latest_upserts
            (build_node_step rid db.repo_latest
              ⟨{ db with repo := repos2 }, [], [], [], [], []⟩ n).db.repo_latest
            (build_node_step rid db.repo_latest
              ⟨{ db with repo := repos2 }, [], [], [], [], []⟩ n).latest_rows := hrl2
        rw [hLcore, hstep.2.2] at hrl2'
        have hrl2'' : rl2 ∈ apply_latest_upserts db.repo_latest
            [⟨n.databaseId.getD 0, rid, rid, n.stargazerCount.getD 0,
              n.forkCount.getD 0, n.watchers.getD 0, n.diskUsage, n.updatedAt, n.pushedAt,
              n.isArchived, (get_or_create_language_id
                { db with repo := repos2 } n.primaryLanguage).2⟩] := hrl2'
        have heq := apply_latest_upserts_single hrl2'' (by rw [hrli]; exact hgd.symm)
        rw [heq]
        exact ⟨rfl, rfl⟩

/-- Concrete instantiation of the change-extension theorem: ingesting
`node_ax` into the empty database with run id 1 (the no-RepoLatest-row
arm opens the segment `[1, 1]`). -/
theorem c6_witness : ∃ s2,
    upsert_from_github_nodes ⟨DB.empty, some 1, []⟩ 0 [node_ax] = Except.ok s2
      ∧ (∀ old, DB.empty.repo_latest.find? (fun rl => rl.repo_id = 1) = some old →
          old.stars = node_ax.stargazerCount.getD 0 → old.forks = node_ax.forkCount.getD 0 →
          old.watchers = node_ax.watchers.getD 0 → old.disk_usage = node_ax.diskUsage →
          s2.db.repo_metrics_hist = DB.empty.repo_metrics_hist.map
              (fun h => if h.repo_id = 1 && h.start_run_id = old.history_start_run_id
                then { h with end_run_id := 1 } else h)
            ∧ (∀ rl2 ∈ s2.db.repo_latest, rl2.repo_id = 1 →
                rl2.history_start_run_id = old.history_start_run_id ∧ rl2.run_id = 1)
            ∧ (∀ h0, DB.empty.repo_metrics_hist.filter
                  (fun h => h.repo_id = 1 && h.start_run_id = old.history_start_run_id)
                  = [h0] →
                (∀ h ∈ DB.empty.repo_metrics_hist, h.repo_id = 1 → h.end_run_id ≤ old.run_id) →
                h0.start_run_id ≤ old.run_id → old.run_id < 1 →
                s2.db.repo_metrics_hist.filter
                    (fun h => h.repo_id = 1 && h.start_run_id ≤ old.run_id
                      && 1 ≤ h.end_run_id)
                  = [{ h0 with end_run_id := 1 }]))
      ∧ ((∀ old, DB.empty.repo_latest.find? (fun rl => rl.repo_id = 1) = some old →
            ¬(old.stars = node_ax.stargazerCount.getD 0 ∧ old.forks = node_ax.forkCount.getD 0 ∧
              old.watchers = node_ax.watchers.getD 0 ∧ old.disk_usage = node_ax.diskUsage)) →
          s2.db.repo_metrics_hist = DB.empty.repo_metrics_hist ++
              [⟨1, 1, 1, node_ax.stargazerCount.getD 0, node_ax.forkCount.getD 0,
                node_ax.watchers.getD 0, node_ax.diskUsage⟩]
            ∧ (∀ rl2 ∈ s2.db.repo_latest, rl2.repo_id = 1 →
                rl2.history_start_run_id = 1 ∧ rl2.run_id = 1)) :=
  c6_change_extension DB.empty 1 [] 0 node_ax 1 "a/x" rfl (by decide) (by decide) rfl
    (by decide) (by decide)

/-- The engine state produced by ingesting `node_ax` into the empty
database (the ingest succeeds, so the default is never taken). -/
def c7_state2 : EngineState :=
  (upsert_from_github_nodes ⟨DB.empty, none, []⟩ 0 [node_ax]).toOption.getD
    ⟨DB.empty, none, []⟩

theorem c7_witness : latest_hist_inv c7_state2.db :=
  c7_latest_consistency_preserved ⟨DB.empty, none, []⟩ 0 [node_ax] c7_state2
    (by intro rl hrl; exact absurd hrl (List.not_mem_nil rl)) (by rfl)

/-- Membership in `INSERT OR IGNORE INTO repo_topic_latest`: every row of
the result was already present or is one of the inserted pairs. -/
theorem insert_topic_pairs_mem :
    ∀ (pairs rtl : List (Int × Nat)) (p : Int × Nat),
      p ∈ insert_topic_pairs rtl pairs → p ∈ rtl ∨ p ∈ pairs := by
  intro pairs
  induction pairs with
  | nil => intro rtl p h; exact Or.inl h
  | cons q qs ih =>
    intro rtl p h
    have h2 : p ∈ insert_topic_pairs (if rtl.contains q then rtl else rtl ++ [q]) qs := h
    rcases ih _ p h2 with hbase | hqs
    · split at hbase
      · exact Or.inl hbase
      · rcases List.mem_append.mp hbase with h3 | h4
        · exact Or.inl h3
        · exact Or.inr (by rw [List.mem_singleton.mp h4]; exact List.mem_cons_self q qs)
    · exact Or.inr (List.mem_cons_of_mem q hqs)

/-- The per-node preparation step inserts at most one history row (keyed
at the current run) and schedules at most one extension (for the current
run and the node's repo id), whatever the latest-row lookup finds. -/
theorem build_step_shapes (rid : Nat) (ex : List LatestRow) (acc : BuildAcc) (n : Node) :
    ((build_node_step rid ex acc n).hist_insert_rows = acc.hist_insert_rows ∨
      (build_node_step rid ex acc n).hist_insert_rows = acc.hist_insert_rows ++
        [⟨n.databaseId.getD 0, rid, rid, n.stargazerCount.getD 0, n.forkCount.getD 0,
          n.watchers.getD 0, n.diskUsage⟩]) ∧
    ((build_node_step rid ex acc n).hist_extend_rows = acc.hist_extend_rows ∨
      ∃ hsr, (build_node_step rid ex acc n).hist_extend_rows = acc.hist_extend_rows ++
        [(rid, n.databaseId.getD 0, hsr)]) := by
  cases hfind : ex.find? (fun rl => rl.repo_id = n.databaseId.getD 0) with
  | none =>
    have h := build_step_nolatest rid ex acc n hfind
    exact ⟨Or.inr h.1, Or.inl h.2.1⟩
  | some old =>
    by_cases hch : (old.stars != n.stargazerCount.getD 0 || old.forks != n.forkCount.getD 0
        || old.watchers != n.watchers.getD 0 || old.disk_usage != n.diskUsage) = true
    · have h := build_step_changed rid ex acc n old hfind hch
      exact ⟨Or.inr h.1, Or.inl h.2.1⟩
    · have h := build_step_unchanged rid ex acc n old hfind (Bool.eq_false_iff.mpr hch)
      exact ⟨Or.inl h.1, Or.inr ⟨old.history_start_run_id, h.2.1⟩⟩

/-- The per-node preparation step always appends exactly one prepared
RepoLatest row, carrying the node's repo id. -/
theorem build_step_latest_shape (rid : Nat) (ex : List LatestRow) (acc : BuildAcc) (n : Node) :
    ∃ lr, (build_node_step rid ex acc n).latest_rows = acc.latest_rows ++ [lr]
      ∧ lr.repo_id = n.databaseId.getD 0 :=
  ⟨_, rfl, rfl⟩

/-- The topic fold of the preparation step only accumulates pairs whose
first component is the fixed repo id. -/
theorem pairs_fold_fst (repo_id : Int) (g : DB → String → DB × Nat) :
    ∀ (ts : List String) (st : DB × List (Int × Nat)),
      (∀ p ∈ st.2, p.1 = repo_id) →
      ∀ p ∈ (ts.foldl (fun st nm2 =>
          ((g st.1 nm2).1, st.2 ++ [(repo_id, (g st.1 nm2).2)])) st).2,
        p.1 = repo_id := by
  intro ts
  induction ts with
  | nil => intro st hst p hp; exact hst p hp
  | cons t ts ih =>
    intro st hst p hp
    refine ih _ ?_ p hp
    intro q hq
    rcases List.mem_append.mp hq with h1 | h2
    · exact hst q h1
    · rw [List.mem_singleton.mp h2]

/-- Every topic pair produced by the preparation step either was already
accumulated or carries the node's repo id. -/
theorem build_step_pairs (rid : Nat) (ex : List LatestRow) (acc : BuildAcc) (n : Node) :
    ∀ p ∈ (build_node_step rid ex acc n).topic_pairs,
      p ∈ acc.topic_pairs ∨ p.1 = n.databaseId.getD 0 := by
  intro p hp
  have hp2 : p ∈ acc.topic_pairs ++ (n.topics.foldl (fun st nm2 =>
      ((get_or_create_topic_id st.1 nm2).1,
        st.2 ++ [(n.databaseId.getD 0, (get_or_create_topic_id st.1 nm2).2)]))
      ((get_or_create_language_id acc.db n.primaryLanguage).1,
        ([] : List (Int × Nat)))).2 := hp
  rcases List.mem_append.mp hp2 with h1 | h2
  · exact Or.inl h1
  · exact Or.inr (pairs_fold_fst (n.databaseId.getD 0) get_or_create_topic_id n.topics _
      (by intro q hq; exact absurd hq (List.not_mem_nil q)) p h2)

/-- Claim C1 (amended): ingesting a snapshot (id `j`, name `nm`) over an
existing repo `r` holding `nm` under a different id disassociates `r`:
its RepoLatest row and RepoTopicLatest rows are deleted, its
RepoMetricsHist rows are preserved, its name is rewritten to the old
name suffixed with `-renamed-` followed by the renamed row's own id
column (not the incoming snapshot's id), and the incoming repo holds
`nm` afterwards. -/
theorem c1_rename_disassociation (db : DB) (rid : Nat) (processed : List Int)
    (fetched_at : Int) (n : Node) (j : Int) (nm : String) (r : RepoRow)
    (hid : n.databaseId = some j) (hpos : 0 < j) (hnew : j ∉ processed)
    (hname : n.nameWithOwner = some nm)
    (hr : r ∈ db.repo) (hrnm : r.name_with_owner = nm) (hrne : r.id ≠ j)
    (hfreshrun : ∀ h ∈ db.repo_metrics_hist, h.repo_id = j → h.start_run_id ≠ rid) :
    ∃ s2, upsert_from_github_nodes ⟨db, some rid, processed⟩ fetched_at [n] = Except.ok s2
      ∧ { r with name_with_owner := r.name_with_owner ++ "-renamed-" ++ toString r.id } ∈ s2.db.repo
      ∧ (∃ x ∈ s2.db.repo, x.id = j ∧ x.name_with_owner = nm)
      ∧ (∀ rl ∈ s2.db.repo_latest, rl.repo_id ≠ r.id)
      ∧ (∀ p ∈ s2.db.repo_topic_latest, p.1 ≠ r.id)
      ∧ (∀ h ∈ db.repo_metrics_hist, h.repo_id = r.id → h ∈ s2.db.repo_metrics_hist) := by
  have hgd : n.databaseId.getD 0 = j := by rw [hid]; rfl
  have hle : ¬ j ≤ 0 := not_le.mpr hpos
  have hff : fresh_filter processed [n] = (j :: processed, [n]) := by
    simp [fresh_filter, hid, hle, hnew]
  have hrows : map_repo_rows [n] = Except.ok [⟨j, nm, n.description, n.homepageUrl, n.createdAt⟩] := by
    simp [map_repo_rows, node_repo_row, hname, hgd]
  have hcin : r.id ∈ conflict_ids db.repo nm j := by
    unfold conflict_ids
    exact List.mem_map_of_mem _ (List.mem_filter.mpr ⟨hr, by simp [hrnm, hrne]⟩)
  have hlat1 : ∀ rl ∈ delete_latest_conflicts db.repo [(nm, j)] db.repo_latest, rl.repo_id ≠ r.id := by
    intro rl hrl heq
    have hrl2 : rl ∈ db.repo_latest.filter
        (fun x => !((conflict_ids db.repo nm j).contains x.repo_id)) := hrl
    have hc := (List.mem_filter.mp hrl2).2
    rw [heq] at hc
    simp at hc
    exact hc hcin
  have hrtl1 : ∀ p ∈ delete_topic_conflicts db.repo [(nm, j)] db.repo_topic_latest, p.1 ≠ r.id := by
    intro p hp heq
    have hp2 : p ∈ db.repo_topic_latest.filter
        (fun x => !((conflict_ids db.repo nm j).contains x.1)) := hp
    have hc := (List.mem_filter.mp hp2).2
    rw [heq] at hc
    simp at hc
    exact hc hcin
  have hrmem : ({ r with name_with_owner := r.name_with_owner ++ "-renamed-" ++ toString r.id } : RepoRow) ∈ rename_conflicts db.repo [(nm, j)] := by
    have hmap : rename_conflicts db.repo [(nm, j)] = db.repo.map (fun x =>
        if x.name_with_owner = nm && x.id != j
        then { x with name_with_owner := x.name_with_owner ++ "-renamed-" ++ toString x.id }
        else x) := rfl
    rw [hmap]
    refine List.mem_map.mpr ⟨r, hr, ?_⟩
    rw [if_pos (by simp [hrnm, hrne])]
  have hclean : ∀ x ∈ rename_conflicts db.repo [(nm, j)], x.id ≠ j →
      x.name_with_owner ≠ nm := by
    intro x hx hxid
    have hx2 : x ∈ db.repo.map (fun y =>
        if y.name_with_owner = nm && y.id != j
        then { y with name_with_owner := y.name_with_owner ++ "-renamed-" ++ toString y.id }
        else y) := hx
    obtain ⟨y, hy, hyx⟩ := List.mem_map.mp hx2
    split at hyx
    · next hcond =>
      rw [← hyx]
      simp only [Bool.and_eq_true, decide_eq_true_eq, bne_iff_ne, ne_eq] at hcond
      intro heq
      have hlen := congrArg String.length heq
      simp only [String.length_append] at hlen
      have h9 : "-renamed-".length = 9 := rfl
      rw [hcond.1, h9] at hlen
      omega
    · next hcond =>
      rw [← hyx] at hxid ⊢
      intro hyn
      exact hcond (by simp [hyn, hxid])
  obtain ⟨repos2, hup2, hpres, hjmem⟩ : ∃ repos2,
      upsert_repo_row (rename_conflicts db.repo [(nm, j)]) ⟨j, nm, n.description, n.homepageUrl, n.createdAt⟩ = Except.ok repos2
      ∧ (∀ x ∈ rename_conflicts db.repo [(nm, j)], x.id ≠ j → x ∈ repos2)
      ∧ ∃ x ∈ repos2, x.id = j ∧ x.name_with_owner = nm := by
    unfold upsert_repo_row
    split
    · next hcond =>
      exfalso
      simp only [List.any_eq_true, Bool.and_eq_true, bne_iff_ne, ne_eq,
        decide_eq_true_eq] at hcond
      obtain ⟨x, hx, hne, hnm2⟩ := hcond
      exact hclean x hx hne hnm2
    · split
      · next hexist =>
        refine ⟨_, rfl, ?_, ?_⟩
        · intro x hx hxid
          exact List.mem_map.mpr ⟨x, hx, by simp [hxid]⟩
        · simp only [List.any_eq_true, decide_eq_true_eq] at hexist
          obtain ⟨y, hy, hyid⟩ := hexist
          refine ⟨_, List.mem_map.mpr ⟨y, hy, rfl⟩, ?_, ?_⟩
          · rw [if_pos (by simp [hyid])]
            exact hyid
          · rw [if_pos (by simp [hyid])]
      · next =>
        refine ⟨_, rfl, ?_, ?_⟩
        · intro x hx hxid
          exact List.mem_append_left _ hx
        · exact ⟨⟨j, nm, n.description, n.homepageUrl, n.createdAt⟩, List.mem_append_right _ (List.mem_singleton.mpr rfl), rfl, rfl⟩
  have hups : upsert_repo_rows (rename_conflicts db.repo [(nm, j)]) [⟨j, nm, n.description, n.homepageUrl, n.createdAt⟩]
      = Except.ok repos2 := by
    simp [upsert_repo_rows, hup2]
  have hcore := build_step_dbCore rid (delete_latest_conflicts db.repo [(nm, j)] db.repo_latest) ⟨{ db with repo := repos2, repo_latest := delete_latest_conflicts db.repo [(nm, j)] db.repo_latest, repo_topic_latest := delete_topic_conflicts db.repo [(nm, j)] db.repo_topic_latest }, [], [], [], [], []⟩ n
  have hRepoCore : (build_node_step rid (delete_latest_conflicts db.repo [(nm, j)] db.repo_latest) ⟨{ db with repo := repos2, repo_latest := delete_latest_conflicts db.repo [(nm, j)] db.repo_latest, repo_topic_latest := delete_topic_conflicts db.repo [(nm, j)] db.repo_topic_latest }, [], [], [], [], []⟩ n).db.repo = repos2 := congrArg (fun t => t.1) hcore
  have hLatCore : (build_node_step rid (delete_latest_conflicts db.repo [(nm, j)] db.repo_latest) ⟨{ db with repo := repos2, repo_latest := delete_latest_conflicts db.repo [(nm, j)] db.repo_latest, repo_topic_latest := delete_topic_conflicts db.repo [(nm, j)] db.repo_topic_latest }, [], [], [], [], []⟩ n).db.repo_latest = delete_latest_conflicts db.repo [(nm, j)] db.repo_latest := congrArg (fun t => t.2.2.1) hcore
  have hHistCore : (build_node_step rid (delete_latest_conflicts db.repo [(nm, j)] db.repo_latest) ⟨{ db with repo := repos2, repo_latest := delete_latest_conflicts db.repo [(nm, j)] db.repo_latest, repo_topic_latest := delete_topic_conflicts db.repo [(nm, j)] db.repo_topic_latest }, [], [], [], [], []⟩ n).db.repo_metrics_hist = db.repo_metrics_hist :=
    congrArg (fun t => t.2.2.2.1) hcore
  have hRtlCore : (build_node_step rid (delete_latest_conflicts db.repo [(nm, j)] db.repo_latest) ⟨{ db with repo := repos2, repo_latest := delete_latest_conflicts db.repo [(nm, j)] db.repo_latest, repo_topic_latest := delete_topic_conflicts db.repo [(nm, j)] db.repo_topic_latest }, [], [], [], [], []⟩ n).db.repo_topic_latest = delete_topic_conflicts db.repo [(nm, j)] db.repo_topic_latest := congrArg (fun t => t.2.2.2.2) hcore
  obtain ⟨hist2, hins, hh2⟩ : ∃ hist2,
      insert_hist_rows (build_node_step rid (delete_latest_conflicts db.repo [(nm, j)] db.repo_latest) ⟨{ db with repo := repos2, repo_latest := delete_latest_conflicts db.repo [(nm, j)] db.repo_latest, repo_topic_latest := delete_topic_conflicts db.repo [(nm, j)] db.repo_topic_latest }, [], [], [], [], []⟩ n).db.repo_metrics_hist (build_node_step rid (delete_latest_conflicts db.repo [(nm, j)] db.repo_latest) ⟨{ db with repo := repos2, repo_latest := delete_latest_conflicts db.repo [(nm, j)] db.repo_latest, repo_topic_latest := delete_topic_conflicts db.repo [(nm, j)] db.repo_topic_latest }, [], [], [], [], []⟩ n).hist_insert_rows = Except.ok hist2
      ∧ ∀ h ∈ db.repo_metrics_hist, h ∈ hist2 := by
    rcases (build_step_shapes rid (delete_latest_conflicts db.repo [(nm, j)] db.repo_latest) ⟨{ db with repo := repos2, repo_latest := delete_latest_conflicts db.repo [(nm, j)] db.repo_latest, repo_topic_latest := delete_topic_conflicts db.repo [(nm, j)] db.repo_topic_latest }, [], [], [], [], []⟩ n).1 with he | he
    · refine ⟨db.repo_metrics_hist, ?_, fun h hh => hh⟩
      rw [he, hHistCore]
      rfl
    · refine ⟨db.repo_metrics_hist ++ [⟨n.databaseId.getD 0, rid, rid, n.stargazerCount.getD 0, n.forkCount.getD 0, n.watchers.getD 0, n.diskUsage⟩], ?_, fun h hh => List.mem_append_left _ hh⟩
      rw [he, hHistCore]
      have hfree : ∀ h2 ∈ db.repo_metrics_hist,
          ¬(h2.repo_id = (⟨n.databaseId.getD 0, rid, rid, n.stargazerCount.getD 0, n.forkCount.getD 0, n.watchers.getD 0, n.diskUsage⟩ : HistRow).repo_id ∧
            h2.start_run_id = (⟨n.databaseId.getD 0, rid, rid, n.stargazerCount.getD 0, n.forkCount.getD 0, n.watchers.getD 0, n.diskUsage⟩ : HistRow).start_run_id) := by
        intro h2 hh2x hcon
        exact hfreshrun h2 hh2x (hcon.1.trans hgd) hcon.2
      have hres := insert_hist_rows_single db.repo_metrics_hist ⟨n.databaseId.getD 0, rid, rid, n.stargazerCount.getD 0, n.forkCount.getD 0, n.watchers.getD 0, n.diskUsage⟩ hfree
      rw [show ((⟨{ db with repo := repos2, repo_latest := delete_latest_conflicts db.repo [(nm, j)] db.repo_latest, repo_topic_latest := delete_topic_conflicts db.repo [(nm, j)] db.repo_topic_latest }, [], [], [], [], []⟩ : BuildAcc).hist_insert_rows ++ [⟨n.databaseId.getD 0, rid, rid, n.stargazerCount.getD 0, n.forkCount.getD 0, n.watchers.getD 0, n.diskUsage⟩])
        = [(⟨n.databaseId.getD 0, rid, rid, n.stargazerCount.getD 0, n.forkCount.getD 0, n.watchers.getD 0, n.diskUsage⟩ : HistRow)] from rfl]
      exact hres
  have hok : upsert_from_github_nodes ⟨db, some rid, processed⟩ fetched_at [n]
      = Except.ok ⟨{ (build_node_step rid (delete_latest_conflicts db.repo [(nm, j)] db.repo_latest) ⟨{ db with repo := repos2, repo_latest := delete_latest_conflicts db.repo [(nm, j)] db.repo_latest, repo_topic_latest := delete_topic_conflicts db.repo [(nm, j)] db.repo_topic_latest }, [], [], [], [], []⟩ n).db with
          repo_latest := apply_latest_upserts (build_node_step rid (delete_latest_conflicts db.repo [(nm, j)] db.repo_latest) ⟨{ db with repo := repos2, repo_latest := delete_latest_conflicts db.repo [(nm, j)] db.repo_latest, repo_topic_latest := delete_topic_conflicts db.repo [(nm, j)] db.repo_topic_latest }, [], [], [], [], []⟩ n).db.repo_latest (build_node_step rid (delete_latest_conflicts db.repo [(nm, j)] db.repo_latest) ⟨{ db with repo := repos2, repo_latest := delete_latest_conflicts db.repo [(nm, j)] db.repo_latest, repo_topic_latest := delete_topic_conflicts db.repo [(nm, j)] db.repo_topic_latest }, [], [], [], [], []⟩ n).latest_rows,
          repo_metrics_hist := apply_hist_extends hist2 (build_node_step rid (delete_latest_conflicts db.repo [(nm, j)] db.repo_latest) ⟨{ db with repo := repos2, repo_latest := delete_latest_conflicts db.repo [(nm, j)] db.repo_latest, repo_topic_latest := delete_topic_conflicts db.repo [(nm, j)] db.repo_topic_latest }, [], [], [], [], []⟩ n).hist_extend_rows,
          repo_topic_latest := insert_topic_pairs ((build_node_step rid (delete_latest_conflicts db.repo [(nm, j)] db.repo_latest) ⟨{ db with repo := repos2, repo_latest := delete_latest_conflicts db.repo [(nm, j)] db.repo_latest, repo_topic_latest := delete_topic_conflicts db.repo [(nm, j)] db.repo_topic_latest }, [], [], [], [], []⟩ n).db.repo_topic_latest.filter (fun p => !((build_node_step rid (delete_latest_conflicts db.repo [(nm, j)] db.repo_latest) ⟨{ db with repo := repos2, repo_latest := delete_latest_conflicts db.repo [(nm, j)] db.repo_latest, repo_topic_latest := delete_topic_conflicts db.repo [(nm, j)] db.repo_topic_latest }, [], [], [], [], []⟩ n).topic_repo_ids.contains p.1))) (build_node_step rid (delete_latest_conflicts db.repo [(nm, j)] db.repo_latest) ⟨{ db with repo := repos2, repo_latest := delete_latest_conflicts db.repo [(nm, j)] db.repo_latest, repo_topic_latest := delete_topic_conflicts db.repo [(nm, j)] db.repo_topic_latest }, [], [], [], [], []⟩ n).topic_pairs },
        some rid, j :: processed⟩ := by
    simp only [upsert_from_github_nodes, begin_run, hff, ingest_fresh, List.isEmpty_cons,
      Bool.false_eq_true, if_false, hrows, List.map_cons, List.map_nil, hups,
      List.foldl_cons, List.foldl_nil, hins]
  refine ⟨_, hok, ?_, ?_, ?_, ?_, ?_⟩
  · have hgoal : ({ r with name_with_owner := r.name_with_owner ++ "-renamed-" ++ toString r.id } : RepoRow) ∈ (build_node_step rid (delete_latest_conflicts db.repo [(nm, j)] db.repo_latest) ⟨{ db with repo := repos2, repo_latest := delete_latest_conflicts db.repo [(nm, j)] db.repo_latest, repo_topic_latest := delete_topic_conflicts db.repo [(nm, j)] db.repo_topic_latest }, [], [], [], [], []⟩ n).db.repo := by
      rw [hRepoCore]
      exact hpres _ hrmem hrne
    exact hgoal
  · obtain ⟨x, hx, hxid, hxnm⟩ := hjmem
    refine ⟨x, ?_, hxid, hxnm⟩
    have hgoal : x ∈ (build_node_step rid (delete_latest_conflicts db.repo [(nm, j)] db.repo_latest) ⟨{ db with repo := repos2, repo_latest := delete_latest_conflicts db.repo [(nm, j)] db.repo_latest, repo_topic_latest := delete_topic_conflicts db.repo [(nm, j)] db.repo_topic_latest }, [], [], [], [], []⟩ n).db.repo := by
      rw [hRepoCore]
      exact hx
    exact hgoal
  · intro rl hrl
    have hrl2 : rl ∈ apply_latest_upserts (build_node_step rid (delete_latest_conflicts db.repo [(nm, j)] db.repo_latest) ⟨{ db with repo := repos2, repo_latest := delete_latest_conflicts db.repo [(nm, j)] db.repo_latest, repo_topic_latest := delete_topic_conflicts db.repo [(nm, j)] db.repo_topic_latest }, [], [], [], [], []⟩ n).db.repo_latest (build_node_step rid (delete_latest_conflicts db.repo [(nm, j)] db.repo_latest) ⟨{ db with repo := repos2, repo_latest := delete_latest_conflicts db.repo [(nm, j)] db.repo_latest, repo_topic_latest := delete_topic_conflicts db.repo [(nm, j)] db.repo_topic_latest }, [], [], [], [], []⟩ n).latest_rows := hrl
    obtain ⟨lr, hlr, hlrid⟩ := build_step_latest_shape rid (delete_latest_conflicts db.repo [(nm, j)] db.repo_latest) ⟨{ db with repo := repos2, repo_latest := delete_latest_conflicts db.repo [(nm, j)] db.repo_latest, repo_topic_latest := delete_topic_conflicts db.repo [(nm, j)] db.repo_topic_latest }, [], [], [], [], []⟩ n
    rw [hLatCore, hlr] at hrl2
    rcases apply_latest_upserts_mem _ _ _ hrl2 with h1 | h2
    · exact hlat1 rl h1
    · rcases List.mem_append.mp h2 with h3 | h4
      · exact absurd h3 (List.not_mem_nil rl)
      · intro heq
        rw [List.mem_singleton.mp h4] at heq
        rw [hlrid, hgd] at heq
        exact hrne heq.symm
  · intro p hp
    have hp2 : p ∈ insert_topic_pairs ((build_node_step rid (delete_latest_conflicts db.repo [(nm, j)] db.repo_latest) ⟨{ db with repo := repos2, repo_latest := delete_latest_conflicts db.repo [(nm, j)] db.repo_latest, repo_topic_latest := delete_topic_conflicts db.repo [(nm, j)] db.repo_topic_latest }, [], [], [], [], []⟩ n).db.repo_topic_latest.filter (fun q => !((build_node_step rid (delete_latest_conflicts db.repo [(nm, j)] db.repo_latest) ⟨{ db with repo := repos2, repo_latest := delete_latest_conflicts db.repo [(nm, j)] db.repo_latest, repo_topic_latest := delete_topic_conflicts db.repo [(nm, j)] db.repo_topic_latest }, [], [], [], [], []⟩ n).topic_repo_ids.contains q.1))) (build_node_step rid (delete_latest_conflicts db.repo [(nm, j)] db.repo_latest) ⟨{ db with repo := repos2, repo_latest := delete_latest_conflicts db.repo [(nm, j)] db.repo_latest, repo_topic_latest := delete_topic_conflicts db.repo [(nm, j)] db.repo_topic_latest }, [], [], [], [], []⟩ n).topic_pairs := hp
    rcases insert_topic_pairs_mem _ _ _ hp2 with h1 | h2
    · have h3 : p ∈ (build_node_step rid (delete_latest_conflicts db.repo [(nm, j)] db.repo_latest) ⟨{ db with repo := repos2, repo_latest := delete_latest_conflicts db.repo [(nm, j)] db.repo_latest, repo_topic_latest := delete_topic_conflicts db.repo [(nm, j)] db.repo_topic_latest }, [], [], [], [], []⟩ n).db.repo_topic_latest := List.mem_of_mem_filter h1
      rw [hRtlCore] at h3
      exact hrtl1 p h3
    · rcases build_step_pairs rid (delete_latest_conflicts db.repo [(nm, j)] db.repo_latest) ⟨{ db with repo := repos2, repo_latest := delete_latest_conflicts db.repo [(nm, j)] db.repo_latest, repo_topic_latest := delete_topic_conflicts db.repo [(nm, j)] db.repo_topic_latest }, [], [], [], [], []⟩ n p h2 with h3 | h4
      · exact absurd h3 (List.not_mem_nil p)
      · intro heq
        rw [hgd] at h4
        exact hrne (h4.symm.trans heq).symm
  · intro h hh hhid
    have hgoal : h ∈ apply_hist_extends hist2 (build_node_step rid (delete_latest_conflicts db.repo [(nm, j)] db.repo_latest) ⟨{ db with repo := repos2, repo_latest := delete_latest_conflicts db.repo [(nm, j)] db.repo_latest, repo_topic_latest := delete_topic_conflicts db.repo [(nm, j)] db.repo_topic_latest }, [], [], [], [], []⟩ n).hist_extend_rows := by
      rcases (build_step_shapes rid (delete_latest_conflicts db.repo [(nm, j)] db.repo_latest) ⟨{ db with repo := repos2, repo_latest := delete_latest_conflicts db.repo [(nm, j)] db.repo_latest, repo_topic_latest := delete_topic_conflicts db.repo [(nm, j)] db.repo_topic_latest }, [], [], [], [], []⟩ n).2 with he | ⟨hsr, he⟩
      · rw [he]
        exact hh2 h hh
      · rw [he]
        show h ∈ hist2.map (fun x =>
          if x.repo_id = n.databaseId.getD 0 && x.start_run_id = hsr
          then { x with end_run_id := rid } else x)
        refine List.mem_map.mpr ⟨h, hh2 h hh, ?_⟩
        simp [hgd, hhid, hrne]
    exact hgoal

/-- Concrete instantiation of the rename-disassociation theorem:
snapshot (id=8, "old/x") ingested over `db_old7`, whose repo 7 holds
"old/x". -/
theorem c1_witness : ∃ s2,
    upsert_from_github_nodes ⟨db_old7, some 2, []⟩ 100 [node8_oldx] = Except.ok s2
      ∧ { (⟨7, "old/x", none, none, some 5⟩ : RepoRow) with
          name_with_owner := (⟨7, "old/x", none, none, some 5⟩ : RepoRow).name_with_owner
            ++ "-renamed-" ++ toString (⟨7, "old/x", none, none, some 5⟩ : RepoRow).id }
          ∈ s2.db.repo
      ∧ (∃ x ∈ s2.db.repo, x.id = 8 ∧ x.name_with_owner = "old/x")
      ∧ (∀ rl ∈ s2.db.repo_latest,
          rl.repo_id ≠ (⟨7, "old/x", none, none, some 5⟩ : RepoRow).id)
      ∧ (∀ p ∈ s2.db.repo_topic_latest,
          p.1 ≠ (⟨7, "old/x", none, none, some 5⟩ : RepoRow).id)
      ∧ (∀ h ∈ db_old7.repo_metrics_hist,
          h.repo_id = (⟨7, "old/x", none, none, some 5⟩ : RepoRow).id →
          h ∈ s2.db.repo_metrics_hist) :=
  c1_rename_disassociation db_old7 2 [] 100 node8_oldx 8 "old/x"
    ⟨7, "old/x", none, none, some 5⟩ rfl (by decide) (by decide) rfl (by decide) rfl
    (by decide) (by decide)
